import Mathlib

/-!
# Verification of the auto-creation creative generation engine

A shallow embedding, in Lean 4, of the core components of the
auto-creation repository:

* the tabular (TSV) output parser/validator
  (`pipeline/tsv_parser.py`, `src/services/text.py`),
* the staged-text pipeline retry loop
  (`pipeline/pipeline.py`, `src/services/text.py`),
* the source resolver and slot/layer builder of the config-driven
  creative engines (`src/engine/engine.py`, `src/v2/engine/engine.py`),
* the render-job submission/poll phases (`src/engine/engine.py`) and the
  job tracker driven by the orchestrator
  (`placid/tracker.py`, `placid/orchestrator.py`).

Python strings are modelled as `String`/`List Char`; Python dicts (which
preserve insertion order) as association lists; fallible Python code
(raised exceptions) as `Option`/`Except`.  All definitions are executable
and structurally recursive so that concrete runs reduce by `decide`/`rfl`.
-/

set_option autoImplicit false

namespace AutoCreation

/-! ## Python string primitives

`pySpace` is the ASCII whitespace class stripped by Python's `str.strip`
and matched by the regex class `\s` (`[ \t\n\r\f\v]`); the non-ASCII
whitespace code points also covered by Python are immaterial to the
claims and omitted.
-/

def pySpace (c : Char) : Bool :=
  c = ' ' || c = '\t' || c = '\n' || c = '\r' || c = '\x0b' || c = '\x0c'

/-- Python `str.strip()` on a list of characters. -/
def pyStrip (cs : List Char) : List Char :=
  ((cs.dropWhile pySpace).reverse.dropWhile pySpace).reverse

/-- Python `str.split(sep)` for a one-character separator: splitting never
returns an empty list (splitting the empty string yields `[[]]`). -/
def splitOnChar (c : Char) : List Char → List (List Char)
  | [] => [[]]
  | x :: xs =>
    match splitOnChar c xs with
    | [] => [[]]
    | l :: ls => if x = c then [] :: l :: ls else (x :: l) :: ls

/-- `startsWithL pre l` : does `l` start with `pre` (Python `str.startswith`). -/
def startsWithL : List Char → List Char → Bool
  | [], _ => true
  | _ :: _, [] => false
  | p :: ps, x :: xs => p = x && startsWithL ps xs

/-- Python `needle in hay` substring test. -/
def containsL (needle : List Char) : List Char → Bool
  | [] => needle.isEmpty
  | x :: xs => startsWithL needle (x :: xs) || containsL needle xs

/-- Python `str.lower()` restricted to ASCII letters (the repository's
header markers are ASCII). -/
def asciiLower (c : Char) : Char :=
  if 'A' ≤ c ∧ c ≤ 'Z' then Char.ofNat (c.toNat + 32) else c

def pyLower (cs : List Char) : List Char := cs.map asciiLower

def isDigitC (c : Char) : Bool := '0' ≤ c && c ≤ '9'

/-- Python `int` on a run of decimal digits. -/
def natOfDigits (cs : List Char) : Nat :=
  cs.foldl (fun n c => n * 10 + (c.toNat - '0'.toNat)) 0

/-! ## Tabular-output parser (`TSVParser.parse`, `TextService._parse_tsv`)

`pipeline/tsv_parser.py` lines 20-83 and `src/services/text.py` lines
145-181 contain the same parser, with the expected row count fixed to
`TSVParser.EXPECTED_ROWS = 12`.  The scan bound (`1 <= index <= 12`), the
count check and the index-set check all use that constant, so the
embedding takes the expected row count `expectedRows` as a parameter and
instantiates it with 12 in `TSVParser.parse`.
-/

structure TSVRow where
  index : Nat
  text : String
  deriving DecidableEq, Repr

/-- The two `raise TSVParseError(...)` sites of `TSVParser.parse`; both
carry `raw_output=content`, the complete raw input. -/
inductive TSVParseError where
  | wrongCount (expected got : Nat) (rawOutput : String)
  | wrongIndices (indices : List Nat) (rawOutput : String)
  deriving DecidableEq, Repr

def TSVParseError.rawOutput : TSVParseError → String
  | .wrongCount _ _ raw => raw
  | .wrongIndices _ raw => raw

/-- One iteration of the scan loop of `TSVParser.parse`: strip the line,
skip blank lines, markdown headers (`#...`) and recognized header rows,
then match the regex `^(\d+)\s+(.+)$` and keep the row when
`1 <= index <= expectedRows and text`.  Returns `none` when the line is
skipped or silently dropped.

The regex is modelled by maximal-munch decomposition: a nonempty digit
run, a nonempty whitespace run, and a nonempty remainder.  (When the
remainder is empty, backtracking would make group 2 a whitespace
character whose `strip()` is empty, so the row is dropped either way.) -/
def scanLine (expectedRows : Nat) (rawLine : List Char) : Option TSVRow :=
  let line := pyStrip rawLine
  if line = [] then none
  else if startsWithL ['#'] line then none
  else
    let lower := pyLower line
    if containsL "variation".data lower &&
        (containsL "#".data lower || containsL "text".data lower) then none
    else if startsWithL "index".data lower && containsL "text".data lower then none
    else
      let ds := line.takeWhile isDigitC
      let r1 := line.dropWhile isDigitC
      let ws := r1.takeWhile pySpace
      let rest := r1.dropWhile pySpace
      if ds = [] || ws = [] || rest = [] then none
      else
        let index := natOfDigits ds
        let text := pyStrip rest
        if 1 ≤ index ∧ index ≤ expectedRows ∧ text ≠ [] then
          some ⟨index, ⟨text⟩⟩
        else none

/-- The scan phase of `TSVParser.parse`: split the stripped content on
newlines and collect the recognizable rows in order. -/
def scanRows (expectedRows : Nat) (content : String) : List TSVRow :=
  (splitOnChar '\n' (pyStrip content.data)).filterMap (scanLine expectedRows)

/-- Python's stable `sorted(rows, key=lambda r: r.index)`. -/
def sortRows (rows : List TSVRow) : List TSVRow :=
  rows.insertionSort (fun a b => a.index ≤ b.index)

/-- `TSVParser.parse` with the expected row count as a parameter:
scan, check the row count, check the sorted index list against
`list(range(1, expectedRows + 1))`, and return the rows sorted by index. -/
def parseTSV (expectedRows : Nat) (content : String) :
    Except TSVParseError (List TSVRow) :=
  let rows := scanRows expectedRows content
  if rows.length ≠ expectedRows then
    .error (.wrongCount expectedRows rows.length content)
  else
    let indices := (rows.map TSVRow.index).insertionSort (· ≤ ·)
    if indices ≠ List.range' 1 expectedRows then
      .error (.wrongIndices indices content)
    else
      .ok (sortRows rows)

namespace TSVParser

def EXPECTED_ROWS : Nat := 12

/-- `TSVParser.parse` as in the source, with the row count fixed to 12. -/
def parse (content : String) : Except TSVParseError (List TSVRow) :=
  parseTSV EXPECTED_ROWS content

end TSVParser

deriving instance DecidableEq for Except

instance : IsTotal TSVRow (fun a b => a.index ≤ b.index) :=
  ⟨fun a b => Nat.le_total a.index b.index⟩

instance : IsTrans TSVRow (fun a b => a.index ≤ b.index) :=
  ⟨fun _ _ _ h₁ h₂ => Nat.le_trans h₁ h₂⟩

theorem sorted_le_range' (s n : Nat) : List.Sorted (· ≤ ·) (List.range' s n) :=
  (List.pairwise_lt_range' s n 1 (Nat.le_refl 1)).imp Nat.le_of_lt

/-- Python's `sorted(indices) == list(range(1, N + 1))` test succeeds exactly
when the index list is a permutation of `1..N`. -/
theorem insertionSort_eq_range'_iff (l : List Nat) (N : Nat) :
    l.insertionSort (· ≤ ·) = List.range' 1 N ↔ l.Perm (List.range' 1 N) := by
  constructor
  · intro h
    exact h ▸ (List.perm_insertionSort (· ≤ ·) l).symm
  · intro h
    exact List.eq_of_perm_of_sorted ((List.perm_insertionSort (· ≤ ·) l).trans h)
      (List.sorted_insertionSort (· ≤ ·) l) (sorted_le_range' 1 N)

/-- C1: for every expected row count `N` and raw input: when the scan phase
recognizes rows whose indices are exactly a permutation of `{1..N}` (in
particular there are exactly `N` of them), `TSVParser.parse` returns those
rows sorted ascending by index; otherwise (count mismatch, a missing index
or a duplicate) it returns a structured `TSVParseError` whose `raw_output`
field is the complete raw input text. -/
theorem c1_tsv_parser_contract (N : Nat) (content : String) :
    (((scanRows N content).map TSVRow.index).Perm (List.range' 1 N) →
      parseTSV N content = .ok (sortRows (scanRows N content)) ∧
      (sortRows (scanRows N content)).Perm (scanRows N content) ∧
      (sortRows (scanRows N content)).length = N ∧
      List.Sorted (fun a b => a.index ≤ b.index) (sortRows (scanRows N content))) ∧
    (¬ ((scanRows N content).map TSVRow.index).Perm (List.range' 1 N) →
      ∃ e, parseTSV N content = .error e ∧ e.rawOutput = content) := by
  constructor
  · intro h
    have hlen : (scanRows N content).length = N := by
      have := h.length_eq
      simpa [List.length_range'] using this
    have hsort : ((scanRows N content).map TSVRow.index).insertionSort (· ≤ ·) =
        List.range' 1 N := (insertionSort_eq_range'_iff _ N).mpr h
    refine ⟨?_, ?_, ?_, ?_⟩
    · unfold parseTSV
      rw [if_neg (by simp [hlen]), if_neg (by simp [hsort])]
    · exact List.perm_insertionSort _ _
    · exact (List.perm_insertionSort _ _).length_eq.trans hlen
    · exact List.sorted_insertionSort _ _
  · intro h
    by_cases hlen : (scanRows N content).length = N
    · have hsort : ((scanRows N content).map TSVRow.index).insertionSort (· ≤ ·) ≠
          List.range' 1 N :=
        fun heq => h ((insertionSort_eq_range'_iff _ N).mp heq)
      refine ⟨.wrongIndices (((scanRows N content).map TSVRow.index).insertionSort (· ≤ ·))
        content, ?_, rfl⟩
      unfold parseTSV
      rw [if_neg (by simp [hlen]), if_pos hsort]
    · refine ⟨.wrongCount N (scanRows N content).length content, ?_, rfl⟩
      unfold parseTSV
      rw [if_pos hlen]

/-- Witness for C1: the spec's own end-to-end scenario.  The valid input
`"1\tFoo\n2\tBar\n3\tBaz"` with expected count 3 parses into three rows,
and the duplicated-index input (`1, 2, 2`) raises carrying the raw text. -/
theorem c1_tsv_parser_contract_witness :
    (parseTSV 3 "1\tFoo\n2\tBar\n3\tBaz" =
        .ok (sortRows (scanRows 3 "1\tFoo\n2\tBar\n3\tBaz")) ∧
      (sortRows (scanRows 3 "1\tFoo\n2\tBar\n3\tBaz")).Perm
        (scanRows 3 "1\tFoo\n2\tBar\n3\tBaz") ∧
      (sortRows (scanRows 3 "1\tFoo\n2\tBar\n3\tBaz")).length = 3 ∧
      List.Sorted (fun a b => a.index ≤ b.index)
        (sortRows (scanRows 3 "1\tFoo\n2\tBar\n3\tBaz"))) ∧
    (∃ e, parseTSV 3 "1\tFoo\n2\tBar\n2\tBaz" = .error e ∧
      e.rawOutput = "1\tFoo\n2\tBar\n2\tBaz") :=
  ⟨(c1_tsv_parser_contract 3 "1\tFoo\n2\tBar\n3\tBaz").1 (by decide),
   (c1_tsv_parser_contract 3 "1\tFoo\n2\tBar\n2\tBaz").2 (by decide)⟩

/-! ## Staged-text pipeline retry loop

`TextGenerationPipeline._run_stage_with_retry` (`pipeline/pipeline.py`
lines 90-117) and `TextService._run_stage` (`src/services/text.py` lines
81-113) share the same retry discipline:

```
for attempt in range(max_retries + 1):
    output = run_fn()
    try: TSVParser.parse(output); return output
    except TSVParseError as e: last_error = e; continue
raise PipelineError(f"{stage_name} failed after {max_retries + 1} attempts: {last_error}")
```

The text backend is modelled as a sequence `outputs : Nat → String`
giving the output of each successive call; re-issuing the identical
request is implicit in `run_fn` taking no arguments.  The `PipelineError`
message data (stage name, attempt count, last validation error) is kept
structured.
-/

structure PipelineError where
  stage : String
  attempts : Nat
  lastError : Option TSVParseError
  deriving DecidableEq, Repr

/-- The retry loop: `attempt` is the index of the next backend call,
`remaining` the number of attempts left out of `total = maxRetries + 1`. -/
def runStageLoop (stage : String) (outputs : Nat → String) (total : Nat) :
    Nat → Nat → Option TSVParseError → Except PipelineError String
  | _, 0, lastErr => .error ⟨stage, total, lastErr⟩
  | attempt, remaining + 1, _lastErr =>
    match TSVParser.parse (outputs attempt) with
    | .ok _ => .ok (outputs attempt)
    | .error e => runStageLoop stage outputs total (attempt + 1) remaining (some e)

/-- `_run_stage_with_retry(stage_name, run_fn, input_data, max_retries)`. -/
def runStageWithRetry (stage : String) (outputs : Nat → String)
    (maxRetries : Nat) : Except PipelineError String :=
  runStageLoop stage outputs (maxRetries + 1) 0 (maxRetries + 1) none

/-- A valid 12-row table, accepted by `TSVParser.parse`. -/
def goodTSV : String :=
  "1\tA\n2\tB\n3\tC\n4\tD\n5\tE\n6\tF\n7\tG\n8\tH\n9\tI\n10\tJ\n11\tK\n12\tL"

/-- A backend whose first two outputs fail validation and whose third
output passes: exactly `K = 2` validation failures, then success. -/
def failTwiceOutputs : Nat → String :=
  fun i => if i < 2 then "not a table" else goodTSV

theorem runStageLoop_step_error (stage : String) (outputs : Nat → String)
    (total attempt remaining : Nat) (lastErr : Option TSVParseError)
    (e : TSVParseError) (h : TSVParser.parse (outputs attempt) = .error e) :
    runStageLoop stage outputs total attempt (remaining + 1) lastErr =
      runStageLoop stage outputs total (attempt + 1) remaining (some e) := by
  conv_lhs => unfold runStageLoop
  rw [h]

theorem runStageLoop_step_ok (stage : String) (outputs : Nat → String)
    (total attempt remaining : Nat) (lastErr : Option TSVParseError)
    (h : (TSVParser.parse (outputs attempt)).isOk = true) :
    runStageLoop stage outputs total attempt (remaining + 1) lastErr =
      .ok (outputs attempt) := by
  cases hp : TSVParser.parse (outputs attempt) with
  | ok rows =>
    conv_lhs => unfold runStageLoop
    rw [hp]
  | error e => rw [hp] at h; simp [Except.isOk, Except.toBool] at h

theorem runStageLoop_ok_of_first_pass (stage : String) (outputs : Nat → String)
    (total : Nat) :
    ∀ (K attempt remaining : Nat) (lastErr : Option TSVParseError),
      (∀ j, j < K → (TSVParser.parse (outputs (attempt + j))).isOk = false) →
      (TSVParser.parse (outputs (attempt + K))).isOk = true →
      K < remaining →
      runStageLoop stage outputs total attempt remaining lastErr =
        .ok (outputs (attempt + K)) := by
  intro K
  induction K with
  | zero =>
    intro attempt remaining lastErr _ hpass hlt
    obtain ⟨r, rfl⟩ := Nat.exists_eq_succ_of_ne_zero (Nat.pos_iff_ne_zero.mp hlt)
    exact runStageLoop_step_ok stage outputs total attempt r lastErr
      (by simpa using hpass)
  | succ K ih =>
    intro attempt remaining lastErr hfail hpass hlt
    obtain ⟨r, rfl⟩ := Nat.exists_eq_succ_of_ne_zero
      (Nat.pos_iff_ne_zero.mp (Nat.lt_of_le_of_lt (Nat.zero_le _) hlt))
    have h0 : (TSVParser.parse (outputs attempt)).isOk = false := by
      simpa using hfail 0 (Nat.succ_pos K)
    obtain ⟨e, he⟩ : ∃ e, TSVParser.parse (outputs attempt) = .error e := by
      cases hp : TSVParser.parse (outputs attempt) with
      | ok rows => rw [hp] at h0; simp [Except.isOk, Except.toBool] at h0
      | error e => exact ⟨e, rfl⟩
    rw [runStageLoop_step_error stage outputs total attempt r lastErr e he]
    have := ih (attempt + 1) r (some e)
      (fun j hj => by
        have := hfail (j + 1) (Nat.succ_lt_succ hj)
        simpa [Nat.add_assoc, Nat.add_comm 1 j] using this)
      (by simpa [Nat.add_assoc, Nat.add_comm 1 K] using hpass)
      (Nat.lt_of_succ_lt_succ hlt)
    simpa [Nat.add_assoc, Nat.add_comm 1 K] using this

theorem runStageLoop_error_of_all_fail (stage : String) (outputs : Nat → String)
    (total : Nat) :
    ∀ (remaining attempt : Nat) (lastErr : Option TSVParseError),
      (∀ j, j < remaining → (TSVParser.parse (outputs (attempt + j))).isOk = false) →
      0 < remaining →
      ∃ e, TSVParser.parse (outputs (attempt + remaining - 1)) = .error e ∧
        runStageLoop stage outputs total attempt remaining lastErr =
          .error ⟨stage, total, some e⟩ := by
  intro remaining
  induction remaining with
  | zero => intro _ _ _ h0; exact absurd h0 (by simp)
  | succ r ih =>
    intro attempt lastErr hfail _
    have h0 : (TSVParser.parse (outputs attempt)).isOk = false := by
      simpa using hfail 0 (Nat.succ_pos r)
    obtain ⟨e, he⟩ : ∃ e, TSVParser.parse (outputs attempt) = .error e := by
      cases hp : TSVParser.parse (outputs attempt) with
      | ok rows => rw [hp] at h0; simp [Except.isOk, Except.toBool] at h0
      | error e => exact ⟨e, rfl⟩
    cases r with
    | zero =>
      refine ⟨e, by simpa using he, ?_⟩
      rw [runStageLoop_step_error stage outputs total attempt 0 lastErr e he]
      rfl
    | succ r' =>
      obtain ⟨e', he', hloop⟩ := ih (attempt + 1) (some e)
        (fun j hj => by
          have := hfail (j + 1) (Nat.succ_lt_succ hj)
          simpa [Nat.add_assoc, Nat.add_comm 1 j] using this)
        (Nat.succ_pos r')
      refine ⟨e', ?_, ?_⟩
      · have : attempt + 1 + (r' + 1) - 1 = attempt + (r' + 1 + 1) - 1 := by omega
        rwa [this] at he'
      · rw [runStageLoop_step_error stage outputs total attempt (r' + 1) lastErr e he]
        exact hloop

/-- C2 counterexample: with the default retry budget `max_retries = 2`, a
backend failing validation exactly `K = 2` times and then passing makes the
stage SUCCEED (the loop runs `max_retries + 1 = 3` attempts), contradicting
the claim that `K ≥ 2` failures raise a pipeline failure. -/
theorem c2_counterexample :
    (TSVParser.parse (failTwiceOutputs 0)).isOk = false ∧
    (TSVParser.parse (failTwiceOutputs 1)).isOk = false ∧
    (TSVParser.parse (failTwiceOutputs 2)).isOk = true ∧
    runStageWithRetry "CREATOR" failTwiceOutputs 2 = .ok goodTSV := by
  refine ⟨by decide, by decide, by decide, by decide⟩

/-- C2 (amended): with retry budget `maxRetries` (default 2) additional
attempts, a backend failing validation exactly `K` times then passing makes
the stage return the first passing output when `K ≤ maxRetries` (i.e. K is
at most the budget, not strictly below it), and raise a `PipelineError`
naming the stage and carrying the last validation error when
`K > maxRetries`. -/
theorem c2_stage_retry_contract (stage : String) (outputs : Nat → String)
    (maxRetries K : Nat)
    (hfail : ∀ i, i < K → (TSVParser.parse (outputs i)).isOk = false)
    (hpass : (TSVParser.parse (outputs K)).isOk = true) :
    (K ≤ maxRetries → runStageWithRetry stage outputs maxRetries = .ok (outputs K)) ∧
    (maxRetries < K → ∃ e, TSVParser.parse (outputs maxRetries) = .error e ∧
      runStageWithRetry stage outputs maxRetries =
        .error ⟨stage, maxRetries + 1, some e⟩) := by
  constructor
  · intro hK
    have := runStageLoop_ok_of_first_pass stage outputs (maxRetries + 1)
      K 0 (maxRetries + 1) none
      (fun j hj => by simpa using hfail j hj)
      (by simpa using hpass)
      (Nat.lt_succ_of_le hK)
    simpa [runStageWithRetry] using this
  · intro hK
    obtain ⟨e, he, hloop⟩ := runStageLoop_error_of_all_fail stage outputs
      (maxRetries + 1) (maxRetries + 1) 0 none
      (fun j hj => by simpa using hfail j (Nat.lt_of_lt_of_le hj hK))
      (Nat.succ_pos maxRetries)
    exact ⟨e, by simpa using he, by simpa [runStageWithRetry] using hloop⟩

/-- Witness for C2 (amended): `K = 2` failures with budget 2 still succeed,
returning the third output, and with budget 1 the same backend raises a
`PipelineError` naming the stage and carrying the last validation error. -/
theorem c2_stage_retry_contract_witness :
    runStageWithRetry "CREATOR" failTwiceOutputs 2 = .ok (failTwiceOutputs 2) ∧
    (∃ e, TSVParser.parse (failTwiceOutputs 1) = .error e ∧
      runStageWithRetry "CREATOR" failTwiceOutputs 1 =
        .error ⟨"CREATOR", 2, some e⟩) :=
  ⟨(c2_stage_retry_contract "CREATOR" failTwiceOutputs 2 2
      (by decide) (by decide)).1 (by decide),
   (c2_stage_retry_contract "CREATOR" failTwiceOutputs 1 2
      (by decide) (by decide)).2 (by decide)⟩

/-! ## Engine data model (`src/models/slot.py`, `src/models/config.py`)

Python dicts preserve insertion order and are modelled as association
lists with unique keys; `dict[k]` (raising `KeyError`) is `lookupA`
returning `Option`.  Slot/config values (`Any` in Python) are modelled as
`String`, which is what the repository's pools and generators actually
store (colors, URLs, texts).

The v2 engine (`src/v2/engine/engine.py`) accesses `slot.optional`,
`slot.generator_config`, `slot.batch_creatives` even though
`src/v2/models/slot.py` no longer declares them; the embedding uses the
field set the engines actually read (the v1 `Slot`).
-/

abbrev Value := String

abbrev PropMap := List (String × Value)

/-- Nested Placid layers dict: `layer_name -> {property: value}`. -/
abbrev Layers := List (String × PropMap)

/-- First-match association-list lookup (Python `d[k]` / `d.get(k)`). -/
def lookupA {α : Type} : List (String × α) → String → Option α
  | [], _ => none
  | (k, v) :: rest, key => if k = key then some v else lookupA rest key

/-- Python `d[k] = v` on an insertion-ordered dict. -/
def setA {α : Type} : List (String × α) → String → α → List (String × α)
  | [], key, v => [(key, v)]
  | (k, w) :: rest, key, v =>
    if k = key then (key, v) :: rest else (k, w) :: setA rest key v

/-- `layers[layer_name][prop_name] = value` preceded by
`if layer_name not in layers: layers[layer_name] = {}`. -/
def setLayer (ls : Layers) (layer prop : String) (v : Value) : Layers :=
  match lookupA ls layer with
  | none => ls ++ [(layer, [(prop, v)])]
  | some m => setA ls layer (setA m prop v)

/-- Read back `layers[layer][prop]`. -/
def getProp (ls : Layers) (layer prop : String) : Option Value :=
  (lookupA ls layer).bind (fun m => lookupA m prop)

structure Slot where
  name : String
  source : String
  generatorConfig : Option (List (String × Value)) := none
  optional : Bool := false
  batchCreatives : Bool := false
  deriving DecidableEq, Repr

structure CreativeTypeConfig where
  name : String
  displayName : String
  variants : List (String × String)
  variantSequence : Option (List String)
  slots : List Slot
  stylePool : Option (List PropMap) := none
  ctaPool : Option (List PropMap) := none
  deriving DecidableEq, Repr

/-- Python `s.startswith(pre)`. -/
def strStarts (pre s : String) : Bool := startsWithL pre.data s.data

/-- Python `s.split(".")[0]`: the part before the first dot (the whole
string when there is no dot). -/
def beforeFirstDot (s : String) : String := ⟨s.data.takeWhile (· ≠ '.')⟩

/-- Python `s.split(".", 1)[1]`: everything after the first dot, `none`
(IndexError) when there is no dot. -/
def afterFirstDot (s : String) : Option String :=
  (afterFirstDotAux s.data).map (fun cs => ⟨cs⟩)
where
  afterFirstDotAux : List Char → Option (List Char)
    | [] => none
    | c :: cs => if c = '.' then some cs else afterFirstDotAux cs

/-- Python `layer_name, prop_name = slot.name.split(".")`: succeeds only
when the name contains exactly one dot (otherwise ValueError). -/
def splitName2 (s : String) : Option (String × String) :=
  match splitOnChar '.' s.data with
  | [a, b] => some (⟨a⟩, ⟨b⟩)
  | _ => none

/-- User inputs as read by the layer builders: only the boolean toggles
(`include_<layer>`) are consulted; Python truthiness of the stored value
is modelled as `Bool`. -/
abbrev Inputs := List (String × Bool)

/-- `inputs.get(toggle_name, True)`. -/
def inputToggle (inputs : Inputs) (key : String) : Bool :=
  (lookupA inputs key).getD true

/-- The skip test of `_build_layers`:
`slot.optional and not inputs.get("include_" + slot.name.split(".")[0], True)`. -/
def slotSkipped (slot : Slot) (inputs : Inputs) : Bool :=
  slot.optional && !(inputToggle inputs ("include_" ++ beforeFirstDot slot.name))

/-! ## Style/CTA pool resolution (`src/engine/engine.py` lines 117-145) -/

/-- Python truthiness of an optional pool: `None` and `[]` are falsy. -/
def pyPool (p : Option (List PropMap)) : Option (List PropMap) :=
  match p with
  | none => none
  | some [] => none
  | some pool => some pool

/-- `[values[i % len(values)] for i in range(count)]`. -/
def cycleTo (values : List Value) (count : Nat) : List Value :=
  (List.range count).map (fun i => values.getD (i % values.length) "")

/-- The comprehension `[entry[field] for entry in pool]`: `none` models
the KeyError raised when some entry lacks the field. -/
def mapOptionAll {α β : Type} (f : α → Option β) : List α → Option (List β)
  | [] => some []
  | a :: l =>
    match f a, mapOptionAll f l with
    | some b, some r => some (b :: r)
    | _, _ => none

/-- `CreativeEngine._resolve_style_source`: raise (`none`) when
`config.style_pool` is falsy; extract `source.split(".", 1)[1]` from every
pool entry (KeyError, i.e. `none`, when an entry lacks the field); cycle
the extracted values to `count` items. -/
def resolveStyleSource (source : String) (config : CreativeTypeConfig)
    (count : Nat) : Option (List Value) :=
  match pyPool config.stylePool with
  | none => none
  | some pool =>
    match afterFirstDot source with
    | none => none
    | some field =>
      match mapOptionAll (fun style => lookupA style field) pool with
      | none => none
      | some values => some (cycleTo values count)

/-- `CreativeEngine._resolve_cta_source`: identical shape over `cta_pool`. -/
def resolveCtaSource (source : String) (config : CreativeTypeConfig)
    (count : Nat) : Option (List Value) :=
  match pyPool config.ctaPool with
  | none => none
  | some pool =>
    match afterFirstDot source with
    | none => none
    | some field =>
      match mapOptionAll (fun cta => lookupA cta field) pool with
      | none => none
      | some values => some (cycleTo values count)

/-! ## Layer builders

v2 (`src/v2/engine/engine.py` lines 142-169): every source result is a
list, indexed `results[index % len(results)]` (ZeroDivisionError, i.e.
`none`, on an empty pool).

v1 (`src/engine/engine.py` lines 201-237): batch/style/cta results are
lists indexed `results[creative_idx]` (IndexError out of range); other
sources are dicts keyed by slot name.
-/

/-- The shared slot loop of both `_build_layers` implementations: skip the
slot when toggled off, otherwise determine its value (`valueFor`, the only
point where the two engines differ), split the slot name into layer and
property, and write the value; any lookup failure raises (`none`). -/
def buildLayersAux (valueFor : Slot → Option Value) (inputs : Inputs) :
    List Slot → Layers → Option Layers
  | [], acc => some acc
  | slot :: rest, acc =>
    if slotSkipped slot inputs then buildLayersAux valueFor inputs rest acc
    else
      match valueFor slot with
      | none => none
      | some value =>
        match splitName2 slot.name with
        | none => none
        | some (layer, prop) =>
          buildLayersAux valueFor inputs rest (setLayer acc layer prop value)

/-- v2 per-source resolution results: one value list per source. -/
abbrev SourceResultsV2 := List (String × List Value)

/-- The value chosen for a slot by v2 `_build_layers`:
`results = source_results[slot.source]; value = results[index % len(results)]`
(KeyError when the source is unresolved, ZeroDivisionError on an empty
pool, both modelled as `none`). -/
def slotValueV2 (results : SourceResultsV2) (index : Nat) (slot : Slot) :
    Option Value :=
  match lookupA results slot.source with
  | none => none
  | some pool =>
    if pool.length = 0 then none else some (pool.getD (index % pool.length) "")

/-- v2 `CreativeEngine._build_layers` (`src/v2/engine/engine.py` 142-169). -/
def buildLayersV2 (config : CreativeTypeConfig) (results : SourceResultsV2)
    (inputs : Inputs) (index : Nat) : Option Layers :=
  buildLayersAux (slotValueV2 results index) inputs config.slots []

/-- v1 source resolution result: a value list (batch/style/cta) or a dict
keyed by slot name (non-batch generator sources). -/
inductive SourceResultV1 where
  | list (vals : List Value)
  | dict (m : List (String × Value))
  deriving DecidableEq, Repr

abbrev SourceResultsV1 := List (String × SourceResultV1)

/-- The value chosen for a slot by v1 `_build_layers`: batch/style/cta
results are lists indexed `results[creative_idx]` (IndexError when out of
range, TypeError when the stored result is a dict); other results are
dicts keyed `results[slot.name]` (KeyError when absent, TypeError on a
list); every raise is `none`. -/
def slotValueV1 (results : SourceResultsV1) (creativeIdx : Nat) (slot : Slot) :
    Option Value :=
  match lookupA results slot.source with
  | none => none
  | some res =>
    if slot.batchCreatives || strStarts "style." slot.source
        || strStarts "cta." slot.source then
      match res with
      | .list vals => vals.get? creativeIdx
      | .dict _ => none
    else
      match res with
      | .dict m => lookupA m slot.name
      | .list _ => none

/-- v1 `CreativeEngine._build_layers` (`src/engine/engine.py` 201-237). -/
def buildLayersV1 (config : CreativeTypeConfig) (results : SourceResultsV1)
    (inputs : Inputs) (creativeIdx : Nat) : Option Layers :=
  buildLayersAux (slotValueV1 results creativeIdx) inputs config.slots []

/-! ### Association-list and layer-map lemmas -/

theorem lookupA_setA_self {α : Type} (l : List (String × α)) (k : String) (v : α) :
    lookupA (setA l k v) k = some v := by
  induction l with
  | nil => simp [setA, lookupA]
  | cons hd tl ih =>
    obtain ⟨k', w⟩ := hd
    by_cases h : k' = k
    · simp [setA, h, lookupA]
    · simp [setA, h, lookupA, ih]

theorem lookupA_setA_ne {α : Type} (l : List (String × α)) (k k' : String) (v : α)
    (h : k' ≠ k) : lookupA (setA l k v) k' = lookupA l k' := by
  induction l with
  | nil => simp [setA, lookupA, Ne.symm h]
  | cons hd tl ih =>
    obtain ⟨k'', w⟩ := hd
    by_cases hk : k'' = k
    · subst hk
      simp [setA, lookupA, Ne.symm h]
    · simp [setA, hk, lookupA, ih]

theorem lookupA_append_none {α : Type} (l₁ l₂ : List (String × α)) (k : String)
    (h : lookupA l₁ k = none) : lookupA (l₁ ++ l₂) k = lookupA l₂ k := by
  induction l₁ with
  | nil => rfl
  | cons hd tl ih =>
    obtain ⟨k', v⟩ := hd
    by_cases hk : k' = k
    · simp [lookupA, hk] at h
    · simp [lookupA, hk] at h ⊢
      exact ih h

theorem lookupA_append_some {α : Type} (l₁ l₂ : List (String × α)) (k : String)
    (v : α) (h : lookupA l₁ k = some v) : lookupA (l₁ ++ l₂) k = some v := by
  induction l₁ with
  | nil => simp [lookupA] at h
  | cons hd tl ih =>
    obtain ⟨k', w⟩ := hd
    by_cases hk : k' = k
    · simp [lookupA, hk] at h ⊢
      exact h
    · simp [lookupA, hk] at h ⊢
      exact ih h

theorem getProp_setLayer_self (ls : Layers) (layer prop : String) (v : Value) :
    getProp (setLayer ls layer prop v) layer prop = some v := by
  unfold setLayer getProp
  cases h : lookupA ls layer with
  | none =>
    rw [lookupA_append_none ls _ layer h]
    simp [lookupA]
  | some m =>
    rw [lookupA_setA_self]
    simp [lookupA_setA_self]

theorem getProp_setLayer_ne (ls : Layers) (layer prop layer' prop' : String)
    (v : Value) (h : ¬(layer' = layer ∧ prop' = prop)) :
    getProp (setLayer ls layer prop v) layer' prop' = getProp ls layer' prop' := by
  unfold setLayer getProp
  by_cases hl : layer' = layer
  · subst hl
    have hp : prop' ≠ prop := fun hp => h ⟨rfl, hp⟩
    cases hm : lookupA ls layer' with
    | none =>
      rw [lookupA_append_none ls _ layer' hm]
      simp [lookupA, Ne.symm hp]
    | some m =>
      rw [lookupA_setA_self]
      simp [lookupA_setA_ne m prop prop' v hp]
  · cases hm : lookupA ls layer with
    | none =>
      cases hm' : lookupA ls layer' with
      | none =>
        rw [lookupA_append_none ls _ layer' hm']
        simp [lookupA, Ne.symm hl]
      | some m' =>
        rw [lookupA_append_some ls _ layer' m' hm']
    | some m =>
      rw [lookupA_setA_ne ls layer layer' _ hl]

/-! ### Slot-name splitting lemmas -/

theorem splitOnChar_ne_nil (c : Char) (l : List Char) : splitOnChar c l ≠ [] := by
  cases l with
  | nil => simp [splitOnChar]
  | cons x xs =>
    unfold splitOnChar
    cases h : splitOnChar c xs with
    | nil => simp
    | cons a as => by_cases hx : x = c <;> simp [hx]

theorem splitOnChar_single (c : Char) :
    ∀ l b : List Char, splitOnChar c l = [b] → l = b := by
  intro l
  induction l with
  | nil =>
    intro b h
    simp [splitOnChar] at h
    exact h.symm
  | cons x xs ih =>
    intro b h
    unfold splitOnChar at h
    cases hs : splitOnChar c xs with
    | nil => exact absurd hs (splitOnChar_ne_nil c xs)
    | cons a as =>
      rw [hs] at h
      dsimp only at h
      by_cases hx : x = c
      · rw [if_pos hx] at h
        simp at h
      · rw [if_neg hx] at h
        simp at h
        obtain ⟨hb, has⟩ := h
        subst has
        rw [ih a hs]
        exact hb

theorem splitOnChar_pair (c : Char) :
    ∀ l a b : List Char, splitOnChar c l = [a, b] → l = a ++ c :: b := by
  intro l
  induction l with
  | nil => intro a b h; simp [splitOnChar] at h
  | cons x xs ih =>
    intro a b h
    unfold splitOnChar at h
    cases hs : splitOnChar c xs with
    | nil => exact absurd hs (splitOnChar_ne_nil c xs)
    | cons a' as =>
      rw [hs] at h
      dsimp only at h
      by_cases hx : x = c
      · rw [if_pos hx] at h
        injection h with h1 h2
        injection h2 with h3 h4
        subst h1
        subst h3
        subst h4
        subst hx
        rw [splitOnChar_single x xs a' hs]
        rfl
      · rw [if_neg hx] at h
        injection h with h1 h2
        subst h2
        subst h1
        rw [ih a' b hs]
        rfl

theorem splitName2_eq (s layer prop : String)
    (h : splitName2 s = some (layer, prop)) :
    s.data = layer.data ++ '.' :: prop.data := by
  unfold splitName2 at h
  cases hs : splitOnChar '.' s.data with
  | nil => rw [hs] at h; cases h
  | cons a t =>
    cases t with
    | nil => rw [hs] at h; cases h
    | cons b t2 =>
      cases t2 with
      | nil =>
        rw [hs] at h
        simp at h
        obtain ⟨ha, hb⟩ := h
        have := splitOnChar_pair '.' s.data a b hs
        rw [this, ← ha, ← hb]
      | cons u t3 => rw [hs] at h; cases h

theorem splitName2_inj {s₁ s₂ layer prop : String}
    (h₁ : splitName2 s₁ = some (layer, prop))
    (h₂ : splitName2 s₂ = some (layer, prop)) : s₁ = s₂ := by
  have e₁ := splitName2_eq s₁ layer prop h₁
  have e₂ := splitName2_eq s₂ layer prop h₂
  cases s₁ with
  | mk d₁ =>
    cases s₂ with
    | mk d₂ => simp_all

/-! ### Layer-builder loop lemmas -/

theorem buildLayersAux_cons (valueFor : Slot → Option Value) (inputs : Inputs)
    (slot : Slot) (rest : List Slot) (acc : Layers) :
    buildLayersAux valueFor inputs (slot :: rest) acc =
      if slotSkipped slot inputs then buildLayersAux valueFor inputs rest acc
      else
        match valueFor slot with
        | none => none
        | some value =>
          match splitName2 slot.name with
          | none => none
          | some (layer, prop) =>
            buildLayersAux valueFor inputs rest (setLayer acc layer prop value) := rfl

/-- Slots whose toggle is off contribute nothing: the loop over all slots
equals the loop over the non-skipped slots (for every creative index,
since the skip test does not mention the creative index). -/
theorem buildLayersAux_filter (valueFor : Slot → Option Value) (inputs : Inputs) :
    ∀ (slots : List Slot) (acc : Layers),
      buildLayersAux valueFor inputs slots acc =
        buildLayersAux valueFor inputs
          (slots.filter (fun s => !slotSkipped s inputs)) acc := by
  intro slots
  induction slots with
  | nil => intro acc; rfl
  | cons slot rest ih =>
    intro acc
    by_cases h : slotSkipped slot inputs = true
    · have hf : List.filter (fun s => !slotSkipped s inputs) (slot :: rest) =
          List.filter (fun s => !slotSkipped s inputs) rest := by
        simp [List.filter_cons, h]
      rw [hf, buildLayersAux_cons, if_pos h]
      exact ih acc
    · have hb : slotSkipped slot inputs = false := by
        cases hx : slotSkipped slot inputs
        · rfl
        · exact absurd hx h
      have hf : List.filter (fun s => !slotSkipped s inputs) (slot :: rest) =
          slot :: List.filter (fun s => !slotSkipped s inputs) rest := by
        rw [List.filter_cons, if_pos (show (!slotSkipped slot inputs) = true by rw [hb]; rfl)]
      rw [hf, buildLayersAux_cons, buildLayersAux_cons, if_neg h, if_neg h]
      cases hv : valueFor slot with
      | none => rfl
      | some v =>
        cases hn : splitName2 slot.name with
        | none => rfl
        | some lp =>
          obtain ⟨layer, prop⟩ := lp
          exact ih (setLayer acc layer prop v)

theorem buildLayersAux_append (valueFor : Slot → Option Value) (inputs : Inputs) :
    ∀ (xs ys : List Slot) (acc layers : Layers),
      buildLayersAux valueFor inputs (xs ++ ys) acc = some layers →
      ∃ acc', buildLayersAux valueFor inputs ys acc' = some layers := by
  intro xs
  induction xs with
  | nil => intro ys acc layers h; exact ⟨acc, h⟩
  | cons slot rest ih =>
    intro ys acc layers h
    rw [List.cons_append, buildLayersAux_cons] at h
    by_cases hs : slotSkipped slot inputs
    · rw [if_pos hs] at h
      exact ih ys acc layers h
    · rw [if_neg hs] at h
      cases hv : valueFor slot with
      | none => rw [hv] at h; cases h
      | some v =>
        rw [hv] at h
        cases hn : splitName2 slot.name with
        | none => rw [hn] at h; cases h
        | some lp =>
          obtain ⟨layer, prop⟩ := lp
          rw [hn] at h
          exact ih ys (setLayer acc layer prop v) layers h

theorem buildLayersAux_cons_inv (valueFor : Slot → Option Value) (inputs : Inputs)
    (slot : Slot) (rest : List Slot) (acc layers : Layers)
    (hok : buildLayersAux valueFor inputs (slot :: rest) acc = some layers)
    (hskip : slotSkipped slot inputs = false) :
    ∃ value layer prop, valueFor slot = some value ∧
      splitName2 slot.name = some (layer, prop) ∧
      buildLayersAux valueFor inputs rest (setLayer acc layer prop value) =
        some layers := by
  rw [buildLayersAux_cons, if_neg (by simp [hskip])] at hok
  cases hv : valueFor slot with
  | none => rw [hv] at hok; cases hok
  | some v =>
    rw [hv] at hok
    cases hn : splitName2 slot.name with
    | none => rw [hn] at hok; cases hok
    | some lp =>
      obtain ⟨layer, prop⟩ := lp
      rw [hn] at hok
      exact ⟨v, layer, prop, rfl, rfl, hok⟩

/-- If no slot in the remaining list writes the layer/property pair, the
final value at that pair is whatever the accumulator holds. -/
theorem buildLayersAux_preserved (valueFor : Slot → Option Value) (inputs : Inputs)
    (layer prop : String) :
    ∀ (slots : List Slot) (acc layers : Layers),
      buildLayersAux valueFor inputs slots acc = some layers →
      (∀ s ∈ slots, splitName2 s.name ≠ some (layer, prop)) →
      getProp layers layer prop = getProp acc layer prop := by
  intro slots
  induction slots with
  | nil =>
    intro acc layers h _
    injection h with h
    rw [h]
  | cons slot rest ih =>
    intro acc layers hok hno
    rw [buildLayersAux_cons] at hok
    by_cases hs : slotSkipped slot inputs
    · rw [if_pos hs] at hok
      exact ih acc layers hok (fun s hs' => hno s (List.mem_cons_of_mem _ hs'))
    · rw [if_neg hs] at hok
      cases hv : valueFor slot with
      | none => rw [hv] at hok; cases hok
      | some v =>
        rw [hv] at hok
        cases hn : splitName2 slot.name with
        | none => rw [hn] at hok; cases hok
        | some lp =>
          obtain ⟨l', p'⟩ := lp
          rw [hn] at hok
          rw [ih _ layers hok (fun s hs' => hno s (List.mem_cons_of_mem _ hs'))]
          exact getProp_setLayer_ne acc l' p' layer prop v
            (fun ⟨h1, h2⟩ => hno slot (List.mem_cons_self _ _) (h1 ▸ h2 ▸ hn))

theorem filter_eq_singleton_split {α : Type} (p : α → Bool) :
    ∀ (l : List α) (a : α), l.filter p = [a] →
      ∃ s t, l = s ++ a :: t ∧ (∀ x ∈ s, p x = false) ∧ (∀ x ∈ t, p x = false) := by
  intro l
  induction l with
  | nil => intro a h; simp at h
  | cons x xs ih =>
    intro a h
    rw [List.filter_cons] at h
    by_cases px : p x
    · rw [if_pos px] at h
      injection h with h1 h2
      refine ⟨[], xs, by simp [h1], by simp, ?_⟩
      intro y hy
      have := List.filter_eq_nil_iff.mp h2 y hy
      simpa using this
    · rw [if_neg px] at h
      obtain ⟨s, t, hl, hsf, htf⟩ := ih a h
      refine ⟨x :: s, t, by simp [hl], ?_, htf⟩
      intro y hy
      rcases List.mem_cons.mp hy with hy | hy
      · subst hy; simpa using px
      · exact hsf y hy

/-! ## C3: "smart distribution" indexing -/

/-- Modelled from the spec (§4.4): the smart-distribution pool index
`(creative_index * number_of_slots_sharing_this_source +
slot_position_among_them) mod pool_length`.  This formula appears nowhere
in the repository; it is defined here only to compare against
`_build_layers`. -/
def specSmartDistributionIndex
    (creativeIndex slotsSharing slotPosition poolLength : Nat) : Nat :=
  (creativeIndex * slotsSharing + slotPosition) % poolLength

def smartSlotA : Slot := ⟨"a.x", "gen.p", none, false, false⟩

def smartSlotB : Slot := ⟨"b.y", "gen.p", none, false, false⟩

def smartCfg : CreativeTypeConfig :=
  ⟨"t", "T", [("default", "uuid")], none, [smartSlotA, smartSlotB], none, none⟩

def smartResults : SourceResultsV2 := [("gen.p", ["A", "B", "C"])]

/-- C3 counterexample: a pool of length 3 (`["A","B","C"]`) shared by 2
slots, creative index 0.  For the slot at position 1 the claimed
smart-distribution index is `(0*2+1) mod 3 = 1`, i.e. value `"B"`; the v2
layer builder instead assigns `pool[0 mod 3] = "A"` to both slots — slot
position plays no role. -/
theorem c3_counterexample :
    buildLayersV2 smartCfg smartResults [] 0 =
      some [("a", [("x", "A")]), ("b", [("y", "A")])] ∧
    specSmartDistributionIndex 0 2 1 3 = 1 ∧
    (["A", "B", "C"] : List Value).getD (specSmartDistributionIndex 0 2 1 3) "" = "B" ∧
    getProp [("a", [("x", "A")]), ("b", [("y", "A")])] "b" "y" ≠
      some ((["A", "B", "C"] : List Value).getD (specSmartDistributionIndex 0 2 1 3) "") :=
  ⟨by decide, by decide, by decide, by decide⟩

/-- C3 (amended): the v2 layer builder selects the value for creative
index `i` at every slot by pool index `i mod pool_length` — independent of
how many slots share the source and of the slot's position among them.
Determinism across runs holds because the builder is a pure function of
the config, resolved sources, inputs and creative index. -/
theorem c3_v2_layer_indexing (config : CreativeTypeConfig)
    (results : SourceResultsV2) (inputs : Inputs) (index : Nat) (slot : Slot)
    (pool : List Value) (layers : Layers) (layer prop : String)
    (huniq : config.slots.filter (fun s => s.name = slot.name) = [slot])
    (hskip : slotSkipped slot inputs = false)
    (hres : lookupA results slot.source = some pool)
    (hname : splitName2 slot.name = some (layer, prop))
    (hok : buildLayersV2 config results inputs index = some layers) :
    0 < pool.length ∧
    getProp layers layer prop = some (pool.getD (index % pool.length) "") := by
  obtain ⟨pre, post, hsplit, hpre, hpost⟩ :=
    filter_eq_singleton_split _ config.slots slot huniq
  unfold buildLayersV2 at hok
  rw [hsplit] at hok
  obtain ⟨acc', hok'⟩ := buildLayersAux_append _ _ pre (slot :: post) [] layers hok
  obtain ⟨v, layer', prop', hv, hn, hrest⟩ :=
    buildLayersAux_cons_inv _ _ slot post acc' layers hok' hskip
  rw [hname] at hn
  injection hn with hn
  have hl : layer = layer' := congrArg Prod.fst hn
  have hp : prop = prop' := congrArg Prod.snd hn
  subst hl
  subst hp
  unfold slotValueV2 at hv
  rw [hres] at hv
  dsimp only at hv
  by_cases hlen : pool.length = 0
  · rw [if_pos hlen] at hv; cases hv
  · rw [if_neg hlen] at hv
    injection hv with hv
    refine ⟨Nat.pos_of_ne_zero hlen, ?_⟩
    have hnone : ∀ s ∈ post, splitName2 s.name ≠ some (layer, prop) := by
      intro s hsmem heq
      have hf := hpost s hsmem
      simp only [decide_eq_false_iff_not] at hf
      exact hf (splitName2_inj heq hname)
    rw [buildLayersAux_preserved _ inputs layer prop post _ layers hrest hnone,
      getProp_setLayer_self, hv]

/-- Witness for C3 (amended): in the counterexample configuration, the
slot at position 1 receives `pool[0 mod 3]`. -/
theorem c3_v2_layer_indexing_witness :
    0 < (["A", "B", "C"] : List Value).length ∧
    getProp [("a", [("x", "A")]), ("b", [("y", "A")])] "b" "y" =
      some ((["A", "B", "C"] : List Value).getD
        (0 % (["A", "B", "C"] : List Value).length) "") :=
  c3_v2_layer_indexing smartCfg smartResults [] 0 smartSlotB ["A", "B", "C"]
    [("a", [("x", "A")]), ("b", [("y", "A")])] "b" "y"
    (by decide) (by decide) (by decide) (by decide) (by decide)

/-! ## C9: toggled-off slots -/

/-- The slots that survive the toggle check. -/
def activeSlots (config : CreativeTypeConfig) (inputs : Inputs) : List Slot :=
  config.slots.filter (fun s => !slotSkipped s inputs)

def withSlots (config : CreativeTypeConfig) (slots : List Slot) :
    CreativeTypeConfig :=
  { config with slots := slots }

/-- C9: a toggleable slot whose toggle input is false is skipped for every
creative index: building layers over the full slot list equals building
over the non-skipped slots only (for both engines, for every creative
index — the toggle is template-wide since the skip test never reads the
creative index), and when every slot writing a given layer/property pair
is toggled off, the built property map has no entry at that pair. -/
theorem c9_toggle_excludes_slot (config : CreativeTypeConfig)
    (resultsV2 : SourceResultsV2) (resultsV1 : SourceResultsV1)
    (inputs : Inputs) (i : Nat) (layer prop : String) :
    (buildLayersV2 config resultsV2 inputs i =
      buildLayersV2 (withSlots config (activeSlots config inputs)) resultsV2 inputs i) ∧
    (buildLayersV1 config resultsV1 inputs i =
      buildLayersV1 (withSlots config (activeSlots config inputs)) resultsV1 inputs i) ∧
    ((∀ s ∈ config.slots, splitName2 s.name = some (layer, prop) →
        slotSkipped s inputs = true) →
      (∀ layers, buildLayersV2 config resultsV2 inputs i = some layers →
        getProp layers layer prop = none) ∧
      (∀ layers, buildLayersV1 config resultsV1 inputs i = some layers →
        getProp layers layer prop = none)) := by
  refine ⟨buildLayersAux_filter _ inputs config.slots [],
    buildLayersAux_filter _ inputs config.slots [], ?_⟩
  intro hall
  have hnone : ∀ s ∈ activeSlots config inputs,
      splitName2 s.name ≠ some (layer, prop) := by
    intro s hsmem heq
    have hmem := List.mem_of_mem_filter hsmem
    have hfil := List.of_mem_filter hsmem
    rw [hall s hmem heq] at hfil
    simp at hfil
  constructor
  · intro layers hok
    unfold buildLayersV2 at hok
    rw [buildLayersAux_filter _ inputs config.slots []] at hok
    rw [buildLayersAux_preserved _ inputs layer prop _ [] layers hok hnone]
    rfl
  · intro layers hok
    unfold buildLayersV1 at hok
    rw [buildLayersAux_filter _ inputs config.slots []] at hok
    rw [buildLayersAux_preserved _ inputs layer prop _ [] layers hok hnone]
    rfl

def toggleSlot : Slot := ⟨"header.text", "text.header", none, true, false⟩

def togglePlain : Slot := ⟨"main.text", "text.main", none, false, false⟩

def toggleCfg : CreativeTypeConfig :=
  ⟨"t2", "T2", [("default", "u")], none, [toggleSlot, togglePlain], none, none⟩

def toggleInputs : Inputs := [("include_header", false)]

def toggleResultsV2 : SourceResultsV2 :=
  [("text.header", ["H"]), ("text.main", ["M"])]

def toggleResultsV1 : SourceResultsV1 :=
  [("text.header", .dict [("header.text", "H")]),
   ("text.main", .dict [("main.text", "M")])]

/-- Witness for C9: with `include_header = False`, the optional
`header.text` slot leaves no `header`/`text` entry while the non-toggled
`main.text` slot is filled as usual, in both engines. -/
theorem c9_toggle_excludes_slot_witness :
    getProp [("main", [("text", "M")])] "header" "text" = none ∧
    buildLayersV2 toggleCfg toggleResultsV2 toggleInputs 0 =
      some [("main", [("text", "M")])] ∧
    buildLayersV1 toggleCfg toggleResultsV1 toggleInputs 0 =
      some [("main", [("text", "M")])] :=
  ⟨((c9_toggle_excludes_slot toggleCfg toggleResultsV2 toggleResultsV1
      toggleInputs 0 "header" "text").2.2 (by decide)).1
      [("main", [("text", "M")])] (by decide),
   by decide, by decide⟩

/-! ## C4: style/cta pool cycling -/

theorem pyPool_some (pool : List PropMap) (h : pool ≠ []) :
    pyPool (some pool) = some pool := by
  cases pool with
  | nil => exact absurd rfl h
  | cons e t => rfl

theorem mapOptionAll_length {α β : Type} (f : α → Option β) :
    ∀ (l : List α) (r : List β), mapOptionAll f l = some r →
      r.length = l.length := by
  intro l
  induction l with
  | nil =>
    intro r h
    injection h with h
    rw [← h]
    rfl
  | cons a t ih =>
    intro r h
    unfold mapOptionAll at h
    cases hf : f a with
    | none => rw [hf] at h; dsimp only at h; cases h
    | some b =>
      rw [hf] at h
      cases hm : mapOptionAll f t with
      | none => rw [hm] at h; dsimp only at h; cases h
      | some r' =>
        rw [hm] at h
        dsimp only at h
        injection h with h
        rw [← h]
        simp [ih r' hm]

theorem mapOptionAll_get? {α β : Type} (f : α → Option β) :
    ∀ (l : List α) (r : List β), mapOptionAll f l = some r →
      ∀ (i : Nat) (a : α), l.get? i = some a →
        ∃ b, f a = some b ∧ r.get? i = some b := by
  intro l
  induction l with
  | nil => intro r _ i a ha; simp [List.get?] at ha
  | cons x t ih =>
    intro r h i a ha
    unfold mapOptionAll at h
    cases hf : f x with
    | none => rw [hf] at h; dsimp only at h; cases h
    | some b =>
      rw [hf] at h
      cases hm : mapOptionAll f t with
      | none => rw [hm] at h; dsimp only at h; cases h
      | some r' =>
        rw [hm] at h
        dsimp only at h
        injection h with h
        cases i with
        | zero =>
          rw [List.get?_cons_zero] at ha
          injection ha with ha
          rw [← h, ← ha]
          exact ⟨b, hf, rfl⟩
        | succ j =>
          rw [List.get?_cons_succ] at ha
          obtain ⟨b', hb', hr'⟩ := ih r' hm j a ha
          exact ⟨b', hb', by rw [← h, List.get?_cons_succ]; exact hr'⟩

theorem cycleTo_length (values : List Value) (count : Nat) :
    (cycleTo values count).length = count := by
  simp [cycleTo]

theorem cycleTo_get? (values : List Value) (count i : Nat) (h : i < count) :
    (cycleTo values count).get? i = some (values.getD (i % values.length) "") := by
  unfold cycleTo
  rw [List.get?_eq_getElem?, List.getElem?_map, List.getElem?_range h]
  rfl

/-- C4: a `style.*` or `cta.*` source over a non-empty pool resolves, for
every creative count `N`, to the list of exactly `N` values whose `i`-th
element is the named field of pool entry `i mod L`; resolution is a pure
function, so repeating it with the same config and count yields the
identical list. -/
theorem c4_pool_cycling (config : CreativeTypeConfig) (source field : String)
    (count : Nat) (pool : List PropMap) (values : List Value)
    (hfield : afterFirstDot source = some field)
    (hne : pool ≠ [])
    (hvals : mapOptionAll (fun entry => lookupA entry field) pool = some values) :
    (config.stylePool = some pool →
      resolveStyleSource source config count = some (cycleTo values count)) ∧
    (config.ctaPool = some pool →
      resolveCtaSource source config count = some (cycleTo values count)) ∧
    values.length = pool.length ∧
    (cycleTo values count).length = count ∧
    (∀ i, i < count →
      (cycleTo values count).get? i = some (values.getD (i % values.length) "")) ∧
    (∀ i, i < count → ∃ entry, pool.get? (i % pool.length) = some entry ∧
      lookupA entry field = some (values.getD (i % values.length) "")) := by
  have hlen := mapOptionAll_length _ pool values hvals
  have hpos : 0 < pool.length := by
    cases pool with
    | nil => exact absurd rfl hne
    | cons e t => simp
  refine ⟨?_, ?_, hlen, cycleTo_length values count, ?_, ?_⟩
  · intro h
    unfold resolveStyleSource
    rw [h, pyPool_some pool hne]
    dsimp only
    rw [hfield]
    dsimp only
    rw [hvals]
  · intro h
    unfold resolveCtaSource
    rw [h, pyPool_some pool hne]
    dsimp only
    rw [hfield]
    dsimp only
    rw [hvals]
  · intro i hi
    exact cycleTo_get? values count i hi
  · intro i hi
    have hmod : i % pool.length < pool.length := Nat.mod_lt i hpos
    obtain ⟨entry, hentry⟩ : ∃ entry, pool.get? (i % pool.length) = some entry := by
      rw [List.get?_eq_getElem?, List.getElem?_eq_getElem hmod]
      exact ⟨_, rfl⟩
    obtain ⟨b, hb, hr⟩ := mapOptionAll_get? _ pool values hvals (i % pool.length)
      entry hentry
    refine ⟨entry, hentry, ?_⟩
    have : values.getD (i % values.length) "" = b := by
      rw [hlen]
      rw [List.getD_eq_getElem?_getD, ← List.get?_eq_getElem?, hr]
      rfl
    rw [this]
    exact hb

def stylePool4 : List PropMap :=
  [[("background_color", "P1")], [("background_color", "P2")],
   [("background_color", "P3")], [("background_color", "P4")]]

def styleCfg : CreativeTypeConfig :=
  ⟨"s", "S", [("default", "u")], none, [], some stylePool4, some stylePool4⟩

/-- Witness for C4: the spec's scenario — a 4-entry pool resolved for
count 12 yields each entry's field exactly 3 times, cycling in pool
order. -/
theorem c4_pool_cycling_witness :
    resolveStyleSource "style.background_color" styleCfg 12 =
      some (cycleTo ["P1", "P2", "P3", "P4"] 12) ∧
    cycleTo ["P1", "P2", "P3", "P4"] 12 =
      ["P1", "P2", "P3", "P4", "P1", "P2", "P3", "P4", "P1", "P2", "P3", "P4"] :=
  ⟨(c4_pool_cycling styleCfg "style.background_color" "background_color" 12
      stylePool4 ["P1", "P2", "P3", "P4"]
      (by decide) (by decide) (by decide)).1 (by decide),
   by decide⟩

/-! ## Engine submission and polling (`CreativeEngine._build_creatives`,
`CreativeEngine._poll_job`, `src/engine/engine.py` lines 163-248)

External collaborators are oracles: `submit i uuid layers` is the result
of the `submit_generic_job` call made for creative `i`
(`None`, i.e. `none`, when submission fails), and `env j t` is the poll
response `(status, creative_url, error)` returned by the `t`-th
`poll_job` call for the `j`-th submitted job (polling walks the job list
in submission order, one `_poll_job` loop per job). -/

structure Creative where
  creativeType : String
  variant : String
  layers : Layers
  creativeUrl : String
  deriving DecidableEq, Repr

abbrev PollResponse := String × Option String × Option String

abbrev PollResponses := Nat → PollResponse

/-- Python truthiness of `creative_url`: `None` and `""` are falsy. -/
def truthyS : Option String → Bool
  | none => false
  | some s => !(s == "")

inductive EngineError where
  | jobFailed (error : Option String)
  | jobTimedOut
  | buildError
  deriving DecidableEq, Repr

def maxPollAttempts : Nat := 60

/-- The body of `_poll_job`: up to `fuel` polls starting at attempt `t`;
return the URL on `finished` with a truthy URL, raise on `error`,
otherwise keep polling; raise a timeout when attempts are exhausted. -/
def pollJobLoop (responses : PollResponses) : Nat → Nat → Except EngineError String
  | _, 0 => .error .jobTimedOut
  | t, fuel + 1 =>
    let r := responses t
    if r.1 == "finished" && truthyS r.2.1 then .ok (r.2.1.getD "")
    else if r.1 == "error" then .error (.jobFailed r.2.2)
    else pollJobLoop responses (t + 1) fuel

/-- `_poll_job(job_id, max_attempts=60)`. -/
def pollJob (responses : PollResponses) : Except EngineError String :=
  pollJobLoop responses 0 maxPollAttempts

/-- `list(config.variants.keys())[0]` (IndexError on an empty dict). -/
def firstVariantKey (config : CreativeTypeConfig) : Option String :=
  config.variants.head?.map Prod.fst

/-- The variant chosen for creative `i`: `variant_sequence[i]` when the
sequence is truthy (non-None and non-empty), else the first variants
key. -/
def variantFor (config : CreativeTypeConfig) (i : Nat) : Option String :=
  match config.variantSequence with
  | some seq => if seq.isEmpty then firstVariantKey config else seq.get? i
  | none => firstVariantKey config

/-- One `(job_id, layers, variant)` tuple appended by the submit loop. -/
structure Submission where
  jobId : Option Nat
  layers : Layers
  variant : String
  deriving DecidableEq, Repr

/-- The submit loop of `_build_creatives`: for `i` in submission order,
resolve the variant and its UUID, build the layers, call the submit
collaborator, and record the tuple; `none` models the exceptions raised
while building (KeyError/IndexError), which the loop does not catch.
A failed submission (`submit ... = none`) is recorded and the loop
continues. -/
def submitPhase (config : CreativeTypeConfig) (results : SourceResultsV1)
    (inputs : Inputs) (submit : Nat → String → Layers → Option Nat) :
    Nat → Nat → Option (List Submission)
  | _, 0 => some []
  | i, remaining + 1 =>
    match variantFor config i with
    | none => none
    | some variant =>
      match lookupA config.variants variant with
      | none => none
      | some uuid =>
        match buildLayersV1 config results inputs i with
        | none => none
        | some layers =>
          match submitPhase config results inputs submit (i + 1) remaining with
          | none => none
          | some rest => some (⟨submit i uuid layers, layers, variant⟩ :: rest)

/-- The poll loop of `_build_creatives`: walk the submissions in order,
run `_poll_job` for each, and zip into `Creative` records; the first
poll error aborts the whole batch. -/
def pollPhase (creativeType : String) (env : Nat → PollResponses) :
    Nat → List Submission → Except EngineError (List Creative)
  | _, [] => .ok []
  | j, sub :: rest =>
    match pollJob (env j) with
    | .error e => .error e
    | .ok url =>
      match pollPhase creativeType env (j + 1) rest with
      | .error e => .error e
      | .ok creatives => .ok (⟨creativeType, sub.variant, sub.layers, url⟩ :: creatives)

/-- `CreativeEngine._build_creatives`. -/
def buildCreatives (config : CreativeTypeConfig) (results : SourceResultsV1)
    (inputs : Inputs) (count : Nat)
    (submit : Nat → String → Layers → Option Nat)
    (env : Nat → PollResponses) : Except EngineError (List Creative) :=
  match submitPhase config results inputs submit 0 count with
  | none => .error .buildError
  | some subs => pollPhase config.name env 0 subs

/-! ### Submission/poll phase lemmas -/

theorem submitPhase_spec (config : CreativeTypeConfig) (results : SourceResultsV1)
    (inputs : Inputs) (submit : Nat → String → Layers → Option Nat) :
    ∀ (remaining start : Nat) (subs : List Submission),
      submitPhase config results inputs submit start remaining = some subs →
      subs.length = remaining ∧
      (∀ j, j < remaining → ∃ variant uuid layers,
        variantFor config (start + j) = some variant ∧
        lookupA config.variants variant = some uuid ∧
        buildLayersV1 config results inputs (start + j) = some layers ∧
        subs.get? j = some ⟨submit (start + j) uuid layers, layers, variant⟩) := by
  intro remaining
  induction remaining with
  | zero =>
    intro start subs h
    injection h with h
    exact ⟨by rw [← h]; rfl, fun j hj => absurd hj (Nat.not_lt_zero j)⟩
  | succ r ih =>
    intro start subs h
    unfold submitPhase at h
    cases hv : variantFor config start with
    | none => rw [hv] at h; cases h
    | some variant =>
      rw [hv] at h
      dsimp only at h
      cases hu : lookupA config.variants variant with
      | none => rw [hu] at h; cases h
      | some uuid =>
        rw [hu] at h
        dsimp only at h
        cases hl : buildLayersV1 config results inputs start with
        | none => rw [hl] at h; cases h
        | some layers =>
          rw [hl] at h
          dsimp only at h
          cases hr : submitPhase config results inputs submit (start + 1) r with
          | none => rw [hr] at h; cases h
          | some rest =>
            rw [hr] at h
            dsimp only at h
            injection h with h
            obtain ⟨hlen, hspec⟩ := ih (start + 1) rest hr
            constructor
            · rw [← h]
              simp [hlen]
            · intro j hj
              cases j with
              | zero =>
                refine ⟨variant, uuid, layers, by simpa using hv, hu,
                  by simpa using hl, ?_⟩
                rw [← h]
                simp
              | succ j' =>
                obtain ⟨v', u', l', hv', hu', hl', hs'⟩ :=
                  hspec j' (Nat.lt_of_succ_lt_succ hj)
                have harith : start + 1 + j' = start + (j' + 1) := by omega
                refine ⟨v', u', l', by rwa [harith] at hv', hu',
                  by rwa [harith] at hl', ?_⟩
                rw [← h, List.get?_cons_succ, hs', harith]

theorem submitPhase_isSome_indep (config : CreativeTypeConfig)
    (results : SourceResultsV1) (inputs : Inputs)
    (submit submit' : Nat → String → Layers → Option Nat) :
    ∀ (remaining start : Nat),
      (submitPhase config results inputs submit start remaining).isSome =
      (submitPhase config results inputs submit' start remaining).isSome := by
  intro remaining
  induction remaining with
  | zero => intro start; rfl
  | succ r ih =>
    intro start
    unfold submitPhase
    cases hv : variantFor config start with
    | none => rfl
    | some variant =>
      dsimp only
      cases hu : lookupA config.variants variant with
      | none => rfl
      | some uuid =>
        dsimp only
        cases hl : buildLayersV1 config results inputs start with
        | none => rfl
        | some layers =>
          dsimp only
          have hih := ih (start + 1)
          cases hr : submitPhase config results inputs submit (start + 1) r with
          | none =>
            rw [hr] at hih
            cases hr' : submitPhase config results inputs submit' (start + 1) r with
            | none => rfl
            | some rest' => rw [hr'] at hih; simp at hih
          | some rest =>
            rw [hr] at hih
            cases hr' : submitPhase config results inputs submit' (start + 1) r with
            | none => rw [hr'] at hih; simp at hih
            | some rest' => rfl

theorem pollPhase_ok_spec (creativeType : String) (env : Nat → PollResponses) :
    ∀ (subs : List Submission) (start : Nat) (creatives : List Creative),
      pollPhase creativeType env start subs = .ok creatives →
      creatives.length = subs.length ∧
      (∀ j, j < subs.length → ∃ sub url,
        subs.get? j = some sub ∧
        pollJob (env (start + j)) = .ok url ∧
        creatives.get? j = some ⟨creativeType, sub.variant, sub.layers, url⟩) := by
  intro subs
  induction subs with
  | nil =>
    intro start creatives h
    injection h with h
    exact ⟨by rw [← h]; rfl, fun j hj => absurd hj (by simp)⟩
  | cons sub rest ih =>
    intro start creatives h
    unfold pollPhase at h
    cases hp : pollJob (env start) with
    | error e => rw [hp] at h; cases h
    | ok url =>
      rw [hp] at h
      dsimp only at h
      cases hr : pollPhase creativeType env (start + 1) rest with
      | error e => rw [hr] at h; cases h
      | ok cs =>
        rw [hr] at h
        dsimp only at h
        injection h with h
        obtain ⟨hlen, hspec⟩ := ih (start + 1) cs hr
        constructor
        · rw [← h]
          simp [hlen]
        · intro j hj
          cases j with
          | zero =>
            refine ⟨sub, url, rfl, by simpa using hp, ?_⟩
            rw [← h]
            rfl
          | succ j' =>
            obtain ⟨sub', url', hs', hp', hc'⟩ := hspec j' (by simpa using hj)
            have harith : start + 1 + j' = start + (j' + 1) := by omega
            refine ⟨sub', url', by simpa using hs', by rwa [harith] at hp', ?_⟩
            rw [← h, List.get?_cons_succ]
            exact hc'

theorem pollPhase_abort (creativeType : String) (env : Nat → PollResponses) :
    ∀ (j : Nat) (subs : List Submission) (start : Nat) (e : EngineError),
      j < subs.length →
      (∀ j', j' < j → ∃ url, pollJob (env (start + j')) = .ok url) →
      pollJob (env (start + j)) = .error e →
      pollPhase creativeType env start subs = .error e := by
  intro j
  induction j with
  | zero =>
    intro subs start e hlen _ herr
    cases subs with
    | nil => simp at hlen
    | cons sub rest =>
      have herr' : pollJob (env start) = .error e := by simpa using herr
      conv_lhs => unfold pollPhase
      rw [herr']
  | succ j' ih =>
    intro subs start e hlen hearlier herr
    cases subs with
    | nil => simp at hlen
    | cons sub rest =>
      obtain ⟨url, hurl⟩ := hearlier 0 (Nat.succ_pos j')
      have hurl' : pollJob (env start) = .ok url := by simpa using hurl
      conv_lhs => unfold pollPhase
      rw [hurl']
      dsimp only
      have harith : ∀ k : Nat, start + 1 + k = start + (k + 1) := by omega
      have hrec := ih rest (start + 1) e (by simpa using hlen)
        (fun k hk => by
          rw [harith k]
          exact hearlier (k + 1) (Nat.succ_lt_succ hk))
        (by rw [harith j']; exact herr)
      rw [hrec]

/-! ### Poll-loop lemmas -/

theorem pollJobLoop_all_nonterminal (responses : PollResponses) :
    ∀ (fuel t : Nat),
      (∀ u, u < fuel →
        (((responses (t + u)).1 == "finished") &&
          truthyS (responses (t + u)).2.1) = false ∧
        ((responses (t + u)).1 == "error") = false) →
      pollJobLoop responses t fuel = .error .jobTimedOut := by
  intro fuel
  induction fuel with
  | zero => intro t _; rfl
  | succ f ih =>
    intro t hall
    obtain ⟨h1, h2⟩ := hall 0 (Nat.succ_pos f)
    rw [Nat.add_zero] at h1 h2
    conv_lhs => unfold pollJobLoop
    dsimp only
    rw [if_neg (by simp [h1]), if_neg (by simp [h2])]
    exact ih (t + 1) (fun u hu => by
      have := hall (u + 1) (Nat.succ_lt_succ hu)
      rwa [show t + (u + 1) = t + 1 + u by omega] at this)

theorem pollJobLoop_first_success (responses : PollResponses) :
    ∀ (k fuel t : Nat), k < fuel →
      (∀ u, u < k →
        (((responses (t + u)).1 == "finished") &&
          truthyS (responses (t + u)).2.1) = false ∧
        ((responses (t + u)).1 == "error") = false) →
      (((responses (t + k)).1 == "finished") &&
        truthyS (responses (t + k)).2.1) = true →
      pollJobLoop responses t fuel = .ok ((responses (t + k)).2.1.getD "") := by
  intro k
  induction k with
  | zero =>
    intro fuel t hk _ hfin
    obtain ⟨f, rfl⟩ := Nat.exists_eq_succ_of_ne_zero (Nat.pos_iff_ne_zero.mp hk)
    rw [Nat.add_zero] at hfin ⊢
    conv_lhs => unfold pollJobLoop
    dsimp only
    rw [if_pos hfin]
  | succ k' ih =>
    intro fuel t hk hpre hfin
    obtain ⟨f, rfl⟩ := Nat.exists_eq_succ_of_ne_zero
      (Nat.pos_iff_ne_zero.mp (Nat.lt_of_le_of_lt (Nat.zero_le _) hk))
    obtain ⟨h1, h2⟩ := hpre 0 (Nat.succ_pos k')
    rw [Nat.add_zero] at h1 h2
    conv_lhs => unfold pollJobLoop
    dsimp only
    rw [if_neg (by simp [h1]), if_neg (by simp [h2])]
    have harith : ∀ u : Nat, t + 1 + u = t + (u + 1) := by omega
    have := ih f (t + 1) (Nat.lt_of_succ_lt_succ hk)
      (fun u hu => by rw [harith u]; exact hpre (u + 1) (Nat.succ_lt_succ hu))
      (by rw [harith k']; exact hfin)
    rw [this, harith k']

theorem pollJobLoop_ok_ne_empty (responses : PollResponses) :
    ∀ (fuel t : Nat) (url : String),
      pollJobLoop responses t fuel = .ok url → url ≠ "" := by
  intro fuel
  induction fuel with
  | zero => intro t url h; cases h
  | succ f ih =>
    intro t url h
    unfold pollJobLoop at h
    dsimp only at h
    by_cases hc : (((responses t).1 == "finished") && truthyS (responses t).2.1) = true
    · rw [if_pos hc] at h
      injection h with h
      have htr : truthyS (responses t).2.1 = true := by
        simp at hc
        exact hc.2
      cases hu : (responses t).2.1 with
      | none => rw [hu] at htr; simp [truthyS] at htr
      | some s =>
        rw [hu] at htr h
        simp [truthyS] at htr
        rw [← h]
        simpa using htr
    · rw [if_neg hc] at h
      by_cases he : ((responses t).1 == "error") = true
      · rw [if_pos he] at h; cases h
      · rw [if_neg he] at h
        exact ih (t + 1) url h

theorem pollPhase_urls_nonempty (creativeType : String) (env : Nat → PollResponses) :
    ∀ (subs : List Submission) (start : Nat) (creatives : List Creative),
      pollPhase creativeType env start subs = .ok creatives →
      ∀ c ∈ creatives, c.creativeUrl ≠ "" := by
  intro subs
  induction subs with
  | nil =>
    intro start creatives h c hc
    injection h with h
    rw [← h] at hc
    simp at hc
  | cons sub rest ih =>
    intro start creatives h c hc
    unfold pollPhase at h
    cases hp : pollJob (env start) with
    | error e => rw [hp] at h; cases h
    | ok url =>
      rw [hp] at h
      dsimp only at h
      cases hr : pollPhase creativeType env (start + 1) rest with
      | error e => rw [hr] at h; cases h
      | ok cs =>
        rw [hr] at h
        dsimp only at h
        injection h with h
        rw [← h] at hc
        rcases List.mem_cons.mp hc with hc | hc
        · rw [hc]
          exact pollJobLoop_ok_ne_empty (env start) maxPollAttempts 0 url hp
        · exact ih (start + 1) cs hr c hc

theorem variantFor_seq (config : CreativeTypeConfig) (seq : List String) (i : Nat)
    (h : config.variantSequence = some seq) (hne : seq ≠ []) :
    variantFor config i = seq.get? i := by
  unfold variantFor
  rw [h]
  dsimp only
  rw [if_neg (by simpa [List.isEmpty_iff] using hne)]

/-- C5: in one generation batch, a failed submission for creative `i`
(the submit collaborator returns no job id) never prevents the submission
of the remaining creatives — the submit phase succeeds or fails
independently of the submit results, and when it succeeds every creative
index `0..N-1` has its tuple recorded, with the submit call made for it;
whereas the first poll error aborts the whole batch: `_build_creatives`
raises and returns no `Creative` list, not even for jobs already
finished. -/
theorem c5_submission_tolerant_poll_fatal (config : CreativeTypeConfig)
    (results : SourceResultsV1) (inputs : Inputs) (count : Nat)
    (submit submit' : Nat → String → Layers → Option Nat)
    (env : Nat → PollResponses) :
    ((submitPhase config results inputs submit 0 count).isSome =
      (submitPhase config results inputs submit' 0 count).isSome) ∧
    (∀ subs, submitPhase config results inputs submit 0 count = some subs →
      subs.length = count ∧
      (∀ j, j < count → ∃ variant uuid layers,
        variantFor config j = some variant ∧
        lookupA config.variants variant = some uuid ∧
        buildLayersV1 config results inputs j = some layers ∧
        subs.get? j = some ⟨submit j uuid layers, layers, variant⟩)) ∧
    (∀ subs j e, submitPhase config results inputs submit 0 count = some subs →
      j < count →
      (∀ j', j' < j → ∃ url, pollJob (env j') = .ok url) →
      pollJob (env j) = .error e →
      buildCreatives config results inputs count submit env = .error e) := by
  refine ⟨submitPhase_isSome_indep config results inputs submit submit' count 0,
    ?_, ?_⟩
  · intro subs h
    obtain ⟨hlen, hspec⟩ := submitPhase_spec config results inputs submit count 0 subs h
    refine ⟨hlen, fun j hj => ?_⟩
    obtain ⟨v, u, l, hv, hu, hl, hs⟩ := hspec j hj
    exact ⟨v, u, l, by simpa using hv, hu, by simpa using hl, by simpa using hs⟩
  · intro subs j e hsub hj hearlier herr
    unfold buildCreatives
    rw [hsub]
    have hlen := (submitPhase_spec config results inputs submit count 0 subs hsub).1
    exact pollPhase_abort config.name env j subs 0 e (by rw [hlen]; exact hj)
      (fun j' hj' => by simpa using hearlier j' hj')
      (by simpa using herr)

def c5submit : Nat → String → Layers → Option Nat :=
  fun i _ _ => if i = 0 then none else some 7

def c5env : Nat → PollResponses := fun _ _ => ("error", none, some "boom")

def c5subs : List Submission :=
  [⟨none, [("main", [("text", "M")])], "default"⟩,
   ⟨some 7, [("main", [("text", "M")])], "default"⟩]

/-- Witness for C5: with a submit collaborator failing on creative 0 and
succeeding on creative 1, both submissions are still recorded; the poll
error on the first job aborts the whole batch with no creative list. -/
theorem c5_submission_tolerant_poll_fatal_witness :
    c5submit 0 "u" [("main", [("text", "M")])] = none ∧
    submitPhase toggleCfg toggleResultsV1 toggleInputs c5submit 0 2 = some c5subs ∧
    buildCreatives toggleCfg toggleResultsV1 toggleInputs 2 c5submit c5env =
      .error (.jobFailed (some "boom")) :=
  ⟨by decide, by decide,
   (c5_submission_tolerant_poll_fatal toggleCfg toggleResultsV1 toggleInputs 2
      c5submit c5submit c5env).2.2 c5subs 0 (.jobFailed (some "boom"))
      (by decide) (by decide)
      (fun j' hj' => absurd hj' (Nat.not_lt_zero j'))
      (by decide)⟩

/-- C7: a successful `generate` returns exactly `N` creatives in
submission order: the `i`-th creative carries the property map built for
creative index `i`, the variant at position `i` (`variant_sequence[i]`
when a non-empty sequence is configured, otherwise the first variant),
and the URL its own poll loop resolved; jobs are submitted in index order
`0..N-1` (the submit call for index `i` is the one recorded at position
`i`). -/
theorem c7_generate_order (config : CreativeTypeConfig)
    (results : SourceResultsV1) (inputs : Inputs) (count : Nat)
    (submit : Nat → String → Layers → Option Nat)
    (env : Nat → PollResponses) (creatives : List Creative)
    (hok : buildCreatives config results inputs count submit env = .ok creatives) :
    creatives.length = count ∧
    ∀ i, i < count → ∃ variant uuid layers url,
      variantFor config i = some variant ∧
      (∀ seq, config.variantSequence = some seq → seq ≠ [] →
        seq.get? i = some variant) ∧
      lookupA config.variants variant = some uuid ∧
      buildLayersV1 config results inputs i = some layers ∧
      pollJob (env i) = .ok url ∧
      creatives.get? i = some ⟨config.name, variant, layers, url⟩ := by
  unfold buildCreatives at hok
  cases hsub : submitPhase config results inputs submit 0 count with
  | none => rw [hsub] at hok; cases hok
  | some subs =>
    rw [hsub] at hok
    obtain ⟨hlen, hspec⟩ := submitPhase_spec config results inputs submit count 0 subs hsub
    obtain ⟨hclen, hcspec⟩ := pollPhase_ok_spec config.name env subs 0 creatives hok
    refine ⟨by rw [hclen, hlen], fun i hi => ?_⟩
    obtain ⟨v, u, l, hv, hu, hl, hs⟩ := hspec i hi
    obtain ⟨sub, url, hsubget, hpoll, hcget⟩ := hcspec i (by rw [hlen]; exact hi)
    rw [hs] at hsubget
    injection hsubget with hsubget
    have hv' : variantFor config i = some v := by simpa using hv
    refine ⟨v, u, l, url, hv', ?_, hu, by simpa using hl, by simpa using hpoll, ?_⟩
    · intro seq hseq hne
      rw [← variantFor_seq config seq i hseq hne]
      exact hv'
    · rw [hcget, ← hsubget]

def c7submit : Nat → String → Layers → Option Nat := fun i _ _ => some (i + 10)

def c7env : Nat → PollResponses :=
  fun j _ => ("finished", some (if j = 0 then "url0" else "url1"), none)

def c7creatives : List Creative :=
  [⟨"t2", "default", [("main", [("text", "M")])], "url0"⟩,
   ⟨"t2", "default", [("main", [("text", "M")])], "url1"⟩]

/-- Witness for C7: two creatives come back in submission order with
their own layers, variants and URLs. -/
theorem c7_generate_order_witness :
    c7creatives.length = 2 ∧
    buildCreatives toggleCfg toggleResultsV1 toggleInputs 2 c7submit c7env =
      .ok c7creatives :=
  ⟨(c7_generate_order toggleCfg toggleResultsV1 toggleInputs 2 c7submit c7env
      c7creatives (by decide)).1,
   by decide⟩

/-- C10: in `_poll_job`, a `finished` response with a null/empty URL is
not terminal — when no attempt within the 60-attempt ceiling is both
`finished` and truthy-URL (and none is `error`, which would raise
instead), the poller raises a timeout; the first attempt that is
`finished` with a truthy URL wins even if earlier attempts were
`finished` with a null/empty URL; a returned URL is never empty, so a
successful `generate` never returns a `Creative` whose URL is
null/empty. -/
theorem c10_null_url_not_terminal (responses : PollResponses) :
    ((∀ t, t < maxPollAttempts →
        (((responses t).1 == "finished") && truthyS (responses t).2.1) = false ∧
        ((responses t).1 == "error") = false) →
      pollJob responses = .error .jobTimedOut) ∧
    (∀ k, k < maxPollAttempts →
      (∀ u, u < k →
        (((responses u).1 == "finished") && truthyS (responses u).2.1) = false ∧
        ((responses u).1 == "error") = false) →
      (((responses k).1 == "finished") && truthyS (responses k).2.1) = true →
      pollJob responses = .ok ((responses k).2.1.getD "")) ∧
    (∀ url, pollJob responses = .ok url → url ≠ "") ∧
    (∀ (config : CreativeTypeConfig) (results : SourceResultsV1)
        (inputs : Inputs) (count : Nat)
        (submit : Nat → String → Layers → Option Nat)
        (env : Nat → PollResponses) (creatives : List Creative),
      buildCreatives config results inputs count submit env = .ok creatives →
      ∀ c ∈ creatives, c.creativeUrl ≠ "") := by
  refine ⟨?_, ?_, ?_, ?_⟩
  · intro hall
    exact pollJobLoop_all_nonterminal responses maxPollAttempts 0
      (fun u hu => by simpa using hall u hu)
  · intro k hk hpre hfin
    have := pollJobLoop_first_success responses k maxPollAttempts 0 hk
      (fun u hu => by simpa using hpre u hu) (by simpa using hfin)
    simpa using this
  · intro url h
    exact pollJobLoop_ok_ne_empty responses maxPollAttempts 0 url h
  · intro config results inputs count submit env creatives hok c hc
    unfold buildCreatives at hok
    cases hsub : submitPhase config results inputs submit 0 count with
    | none => rw [hsub] at hok; cases hok
    | some subs =>
      rw [hsub] at hok
      exact pollPhase_urls_nonempty config.name env subs 0 creatives hok c hc

def flakyResponses : PollResponses := fun t =>
  if t = 0 then ("finished", none, none)
  else if t = 1 then ("finished", some "", none)
  else ("finished", some "http-img", none)

/-- Witness for C10: two `finished` responses with null/empty URLs are
polled past; the third attempt, `finished` with a real URL, is returned. -/
theorem c10_null_url_not_terminal_witness :
    flakyResponses 0 = ("finished", none, none) ∧
    flakyResponses 1 = ("finished", some "", none) ∧
    pollJob flakyResponses = .ok ((flakyResponses 2).2.1.getD "") ∧
    (flakyResponses 2).2.1.getD "" = "http-img" :=
  ⟨by decide, by decide,
   (c10_null_url_not_terminal flakyResponses).2.1 2 (by decide) (by decide)
     (by decide),
   by decide⟩

/-! ## C6: source resolution (`CreativeEngine._resolve_sources`)

v1 (`src/engine/engine.py` lines 50-115) groups the slots by source (a
`defaultdict` keyed in first-occurrence order) and resolves each group
once: style/cta from the pools, otherwise through a generator — one
`generator.generate` call with `count = N` when any slot of the group is
`batch_creatives`, else one call with `count = 1` PER SLOT.

v2 (`src/v2/engine/engine.py` lines 49-87) collects the distinct sources
(a Python `set`; modelled in first-occurrence order, immaterial to the
per-source call counts) and makes exactly one generator call per source.

The generator is an oracle `gen source merged_inputs count`; every call
is recorded in a trace of `GenCall`s so that invocation counts are part
of the result.  The engine's `inputs : dict[str, Any]` is modelled here
by its generator-facing projection `GenInputs` (string values). -/

abbrev GenInputs := List (String × Value)

/-- Python `{**base}` then `.update(upd)`: base keys in order with
updated values, then the new keys of `upd`. -/
def dictUpdate (base upd : GenInputs) : GenInputs :=
  base.map (fun kv => (kv.1, (lookupA upd kv.1).getD kv.2)) ++
    upd.filter (fun kv => (lookupA base kv.1).isNone)

/-- Python truthiness of `slot.generator_config` (`None` and `{}` falsy). -/
def truthyCfg : Option GenInputs → Bool
  | none => false
  | some [] => false
  | some (_ :: _) => true

/-- `slots_by_source[slot.source].append(slot)` on a `defaultdict(list)`:
insertion order of first occurrence, slots in list order. -/
def addToGroup : List (String × List Slot) → Slot → List (String × List Slot)
  | [], s => [(s.source, [s])]
  | (k, g) :: rest, s =>
    if k = s.source then (k, g ++ [s]) :: rest else (k, g) :: addToGroup rest s

def groupBySource (slots : List Slot) : List (String × List Slot) :=
  slots.foldl addToGroup []

/-- One recorded `generator.generate(context)` call: the source it was
created for and the `count` in the context. -/
structure GenCall where
  source : String
  count : Nat
  deriving DecidableEq, Repr

/-- The non-batch arm of v1 `_resolve_sources`: one generator call per
slot with `count = 1`, the result keyed by slot name; `value_list[0]`
raises (`none`) when a call returns no values. -/
def perSlotResolve (genInputs : GenInputs)
    (gen : String → GenInputs → Nat → List Value) (source : String) :
    List Slot → Option (List (String × Value) × List GenCall)
  | [] => some ([], [])
  | s :: rest =>
    let merged := if truthyCfg s.generatorConfig then
      dictUpdate genInputs (s.generatorConfig.getD []) else genInputs
    match gen source merged 1 with
    | [] => none
    | v :: _ =>
      match perSlotResolve genInputs gen source rest with
      | none => none
      | some (m, tr) => some ((s.name, v) :: m, ⟨source, 1⟩ :: tr)

/-- The group loop of v1 `_resolve_sources`. -/
def resolveGroupsV1 (config : CreativeTypeConfig) (genInputs : GenInputs)
    (count : Nat) (gen : String → GenInputs → Nat → List Value) :
    List (String × List Slot) → Option (SourceResultsV1 × List GenCall)
  | [] => some ([], [])
  | (source, slots) :: rest =>
    if strStarts "style." source then
      match resolveStyleSource source config count with
      | none => none
      | some vals =>
        match resolveGroupsV1 config genInputs count gen rest with
        | none => none
        | some (rs, tr) => some ((source, .list vals) :: rs, tr)
    else if strStarts "cta." source then
      match resolveCtaSource source config count with
      | none => none
      | some vals =>
        match resolveGroupsV1 config genInputs count gen rest with
        | none => none
        | some (rs, tr) => some ((source, .list vals) :: rs, tr)
    else if slots.any (fun s => s.batchCreatives) then
      let merged := slots.foldl (fun acc s =>
        if truthyCfg s.generatorConfig then
          dictUpdate acc (s.generatorConfig.getD []) else acc) genInputs
      match resolveGroupsV1 config genInputs count gen rest with
      | none => none
      | some (rs, tr) =>
        some ((source, .list (gen source merged count)) :: rs, ⟨source, count⟩ :: tr)
    else
      match perSlotResolve genInputs gen source slots with
      | none => none
      | some (m, trSlots) =>
        match resolveGroupsV1 config genInputs count gen rest with
        | none => none
        | some (rs, tr) => some ((source, .dict m) :: rs, trSlots ++ tr)

/-- v1 `CreativeEngine._resolve_sources`. -/
def resolveSourcesV1 (config : CreativeTypeConfig) (genInputs : GenInputs)
    (count : Nat) (gen : String → GenInputs → Nat → List Value) :
    Option (SourceResultsV1 × List GenCall) :=
  resolveGroupsV1 config genInputs count gen (groupBySource config.slots)

/-- v2's `generator_sources` set, in first-occurrence order. -/
def distinctSources (slots : List Slot) : List String :=
  slots.foldl (fun acc s => if acc.contains s.source then acc else acc ++ [s.source]) []

/-- v2's `generator_configs[slot.source] = slot.generator_config`
(last truthy config per source wins). -/
def lastGenConfig (slots : List Slot) (source : String) : Option GenInputs :=
  slots.foldl (fun acc s =>
    if (s.source == source) && truthyCfg s.generatorConfig then
      s.generatorConfig else acc) none

def mergedInputsV2 (config : CreativeTypeConfig) (genInputs : GenInputs)
    (source : String) : GenInputs :=
  match lastGenConfig config.slots source with
  | none => genInputs
  | some gc => dictUpdate genInputs gc

/-- v2 `CreativeEngine._resolve_sources`: exactly one generator call per
distinct source, every call with `count = N`. -/
def resolveSourcesV2 (config : CreativeTypeConfig) (genInputs : GenInputs)
    (count : Nat) (gen : String → GenInputs → Nat → List Value) :
    SourceResultsV2 × List GenCall :=
  ((distinctSources config.slots).map (fun source =>
      (source, gen source (mergedInputsV2 config genInputs source) count)),
   (distinctSources config.slots).map (fun source => ⟨source, count⟩))

/-- The generator-call trace v1 produces for a group list: none for
style/cta groups, one call with `count = N` for a batch group, one call
with `count = 1` per slot otherwise. -/
def expectedTraceV1 (count : Nat) : List (String × List Slot) → List GenCall
  | [] => []
  | (source, slots) :: rest =>
    (if strStarts "style." source || strStarts "cta." source then []
     else if slots.any (fun s => s.batchCreatives) then [⟨source, count⟩]
     else slots.map (fun _ => ⟨source, 1⟩)) ++ expectedTraceV1 count rest

theorem perSlotResolve_trace (genInputs : GenInputs)
    (gen : String → GenInputs → Nat → List Value) (source : String) :
    ∀ (slots : List Slot) (m : List (String × Value)) (tr : List GenCall),
      perSlotResolve genInputs gen source slots = some (m, tr) →
      tr = slots.map (fun _ => ⟨source, 1⟩) := by
  intro slots
  induction slots with
  | nil =>
    intro m tr h
    injection h with h
    injection h with h1 h2
    rw [← h2]
    rfl
  | cons s rest ih =>
    intro m tr h
    unfold perSlotResolve at h
    dsimp only at h
    cases hg : gen source (if truthyCfg s.generatorConfig then
        dictUpdate genInputs (s.generatorConfig.getD []) else genInputs) 1 with
    | nil => rw [hg] at h; cases h
    | cons v vs =>
      rw [hg] at h
      dsimp only at h
      cases hr : perSlotResolve genInputs gen source rest with
      | none => rw [hr] at h; cases h
      | some p =>
        obtain ⟨m', tr'⟩ := p
        rw [hr] at h
        dsimp only at h
        injection h with h
        injection h with h1 h2
        rw [← h2, ih m' tr' hr]
        rfl

theorem expectedTraceV1_cons (count : Nat) (source : String) (slots : List Slot)
    (rest : List (String × List Slot)) :
    expectedTraceV1 count ((source, slots) :: rest) =
      (if strStarts "style." source || strStarts "cta." source then []
       else if slots.any (fun s => s.batchCreatives) then [⟨source, count⟩]
       else slots.map (fun _ => ⟨source, 1⟩)) ++ expectedTraceV1 count rest := rfl

theorem resolveGroupsV1_spec (config : CreativeTypeConfig) (genInputs : GenInputs)
    (count : Nat) (gen : String → GenInputs → Nat → List Value) :
    ∀ (groups : List (String × List Slot)) (res : SourceResultsV1)
      (trace : List GenCall),
      resolveGroupsV1 config genInputs count gen groups = some (res, trace) →
      res.map Prod.fst = groups.map Prod.fst ∧
      trace = expectedTraceV1 count groups := by
  intro groups
  induction groups with
  | nil =>
    intro res trace h
    injection h with h
    injection h with h1 h2
    exact ⟨by rw [← h1]; rfl, by rw [← h2]; rfl⟩
  | cons g rest ih =>
    obtain ⟨source, slots⟩ := g
    intro res trace h
    unfold resolveGroupsV1 at h
    dsimp only at h
    by_cases hst : strStarts "style." source = true
    · rw [if_pos hst] at h
      cases hsty : resolveStyleSource source config count with
      | none => rw [hsty] at h; cases h
      | some vals =>
        rw [hsty] at h
        dsimp only at h
        cases hrec : resolveGroupsV1 config genInputs count gen rest with
        | none => rw [hrec] at h; cases h
        | some p =>
          obtain ⟨rs, tr⟩ := p
          rw [hrec] at h
          dsimp only at h
          injection h with h
          injection h with h1 h2
          obtain ⟨ih1, ih2⟩ := ih rs tr hrec
          constructor
          · rw [← h1]
            simp only [List.map_cons]
            rw [ih1]
          · rw [← h2, ih2, expectedTraceV1_cons, if_pos (by simp [hst])]
            rfl
    · rw [if_neg hst] at h
      by_cases hct : strStarts "cta." source = true
      · rw [if_pos hct] at h
        cases hsty : resolveCtaSource source config count with
        | none => rw [hsty] at h; cases h
        | some vals =>
          rw [hsty] at h
          dsimp only at h
          cases hrec : resolveGroupsV1 config genInputs count gen rest with
          | none => rw [hrec] at h; cases h
          | some p =>
            obtain ⟨rs, tr⟩ := p
            rw [hrec] at h
            dsimp only at h
            injection h with h
            injection h with h1 h2
            obtain ⟨ih1, ih2⟩ := ih rs tr hrec
            constructor
            · rw [← h1]
              simp only [List.map_cons]
              rw [ih1]
            · rw [← h2, ih2, expectedTraceV1_cons, if_pos (by simp [hct])]
              rfl
      · rw [if_neg hct] at h
        by_cases hb : slots.any (fun s => s.batchCreatives) = true
        · rw [if_pos hb] at h
          cases hrec : resolveGroupsV1 config genInputs count gen rest with
          | none => rw [hrec] at h; cases h
          | some p =>
            obtain ⟨rs, tr⟩ := p
            rw [hrec] at h
            dsimp only at h
            injection h with h
            injection h with h1 h2
            obtain ⟨ih1, ih2⟩ := ih rs tr hrec
            constructor
            · rw [← h1]
              simp only [List.map_cons]
              rw [ih1]
            · rw [← h2, ih2, expectedTraceV1_cons,
                if_neg (by simp [hst, hct]), if_pos hb]
              rfl
        · rw [if_neg hb] at h
          cases hps : perSlotResolve genInputs gen source slots with
          | none => rw [hps] at h; cases h
          | some q =>
            obtain ⟨m, trSlots⟩ := q
            rw [hps] at h
            dsimp only at h
            cases hrec : resolveGroupsV1 config genInputs count gen rest with
            | none => rw [hrec] at h; cases h
            | some p =>
              obtain ⟨rs, tr⟩ := p
              rw [hrec] at h
              dsimp only at h
              injection h with h
              injection h with h1 h2
              obtain ⟨ih1, ih2⟩ := ih rs tr hrec
              constructor
              · rw [← h1]
                simp only [List.map_cons]
                rw [ih1]
              · rw [← h2, ih2,
                  perSlotResolve_trace genInputs gen source slots m trSlots hps,
                  expectedTraceV1_cons, if_neg (by simp [hst, hct]), if_neg hb]

theorem addToGroup_keys_mem (s : Slot) :
    ∀ (acc : List (String × List Slot)), s.source ∈ acc.map Prod.fst →
      (addToGroup acc s).map Prod.fst = acc.map Prod.fst := by
  intro acc
  induction acc with
  | nil => intro h; simp at h
  | cons g rest ih =>
    obtain ⟨k, grp⟩ := g
    intro h
    unfold addToGroup
    by_cases hk : k = s.source
    · rw [if_pos hk]
      simp [hk]
    · rw [if_neg hk]
      rw [List.map_cons] at h
      rcases List.mem_cons.mp h with h | h
      · exact absurd h.symm hk
      · simp [ih h]

theorem addToGroup_keys_not_mem (s : Slot) :
    ∀ (acc : List (String × List Slot)), s.source ∉ acc.map Prod.fst →
      (addToGroup acc s).map Prod.fst = acc.map Prod.fst ++ [s.source] := by
  intro acc
  induction acc with
  | nil => intro _; rfl
  | cons g rest ih =>
    obtain ⟨k, grp⟩ := g
    intro h
    unfold addToGroup
    by_cases hk : k = s.source
    · exact absurd (by simp [hk]) h
    · rw [if_neg hk]
      have : s.source ∉ rest.map Prod.fst := fun hm => h (by simp [hm])
      simp [ih this]

theorem groupBySource_keys_nodup_aux :
    ∀ (slots : List Slot) (acc : List (String × List Slot)),
      (acc.map Prod.fst).Nodup → ((slots.foldl addToGroup acc).map Prod.fst).Nodup := by
  intro slots
  induction slots with
  | nil => intro acc h; exact h
  | cons s rest ih =>
    intro acc h
    rw [List.foldl_cons]
    by_cases hm : s.source ∈ acc.map Prod.fst
    · exact ih (addToGroup acc s) (by rw [addToGroup_keys_mem s acc hm]; exact h)
    · refine ih (addToGroup acc s) ?_
      rw [addToGroup_keys_not_mem s acc hm]
      simp [List.nodup_append, h, hm]

/-- Each distinct source appears exactly once among v1's resolution
groups. -/
theorem groupBySource_keys_nodup (slots : List Slot) :
    ((groupBySource slots).map Prod.fst).Nodup :=
  groupBySource_keys_nodup_aux slots [] List.nodup_nil

theorem distinctSources_nodup_aux :
    ∀ (slots : List Slot) (acc : List String), acc.Nodup →
      (slots.foldl (fun acc s =>
        if acc.contains s.source then acc else acc ++ [s.source]) acc).Nodup := by
  intro slots
  induction slots with
  | nil => intro acc h; exact h
  | cons s rest ih =>
    intro acc h
    rw [List.foldl_cons]
    by_cases hc : acc.contains s.source = true
    · rw [if_pos hc]
      exact ih acc h
    · rw [if_neg hc]
      refine ih (acc ++ [s.source]) ?_
      have hm : s.source ∉ acc := fun hmem => hc (List.elem_iff.mpr hmem)
      simp [List.nodup_append, h, hm]

theorem distinctSources_nodup (slots : List Slot) : (distinctSources slots).Nodup :=
  distinctSources_nodup_aux slots [] List.nodup_nil

def c6cfg : CreativeTypeConfig :=
  ⟨"c6", "C6", [("default", "u")], none,
   [⟨"a.x", "text.t", none, false, false⟩, ⟨"b.y", "text.t", none, false, false⟩],
   none, none⟩

def c6gen : String → GenInputs → Nat → List Value := fun _ _ _ => ["v"]

/-- C6 counterexample: one distinct (non-batch) generator source
referenced by two slots: v1 `_resolve_sources` makes TWO generator
invocations (one per slot, each with `count = 1`), not one per source as
the claim states. -/
theorem c6_counterexample :
    (groupBySource c6cfg.slots).map Prod.fst = ["text.t"] ∧
    resolveSourcesV1 c6cfg [] 12 c6gen =
      some ([("text.t", .dict [("a.x", "v"), ("b.y", "v")])],
        [⟨"text.t", 1⟩, ⟨"text.t", 1⟩]) ∧
    (([⟨"text.t", 1⟩, ⟨"text.t", 1⟩] : List GenCall).length = 2 ∧
      ([⟨"text.t", 1⟩, ⟨"text.t", 1⟩] : List GenCall).length ≠ 1) :=
  ⟨by decide, by decide, by decide, by decide⟩

/-- C6 (amended): each distinct source name is resolved exactly once —
the v1 resolver produces one results entry per distinct source (the group
keys are exactly the distinct sources, each once) — but the number of
generator invocations for a generator-backed source is mode-dependent:
one call with `count = N` when some slot of the source is batch,
otherwise one call with `count = 1` per slot referencing the source; in
the v2 engine every distinct source gets exactly one generator call with
`count = N`. -/
theorem c6_resolution_per_source (config : CreativeTypeConfig)
    (genInputs : GenInputs) (count : Nat)
    (gen : String → GenInputs → Nat → List Value) :
    (∀ res trace, resolveSourcesV1 config genInputs count gen = some (res, trace) →
      res.map Prod.fst = (groupBySource config.slots).map Prod.fst ∧
      trace = expectedTraceV1 count (groupBySource config.slots)) ∧
    ((groupBySource config.slots).map Prod.fst).Nodup ∧
    (resolveSourcesV2 config genInputs count gen).2 =
      (distinctSources config.slots).map (fun source => ⟨source, count⟩) ∧
    (distinctSources config.slots).Nodup := by
  refine ⟨?_, groupBySource_keys_nodup config.slots, rfl,
    distinctSources_nodup config.slots⟩
  intro res trace h
  exact resolveGroupsV1_spec config genInputs count gen
    (groupBySource config.slots) res trace h

/-- Witness for C6 (amended): on the two-slot single-source config, the
trace is one `count = 1` call per slot, and v2 makes exactly one call. -/
theorem c6_resolution_per_source_witness :
    ([("text.t", SourceResultV1.dict [("a.x", "v"), ("b.y", "v")])].map Prod.fst =
      (groupBySource c6cfg.slots).map Prod.fst ∧
      [⟨"text.t", 1⟩, ⟨"text.t", 1⟩] = expectedTraceV1 12 (groupBySource c6cfg.slots)) ∧
    (resolveSourcesV2 c6cfg [] 12 c6gen).2 = [⟨"text.t", 12⟩] :=
  ⟨((c6_resolution_per_source c6cfg [] 12 c6gen).1
      [("text.t", .dict [("a.x", "v"), ("b.y", "v")])]
      [⟨"text.t", 1⟩, ⟨"text.t", 1⟩] (by decide)),
   by decide⟩

/-! ## C8: the job tracker as driven by the orchestrator
(`placid/tracker.py` lines 24-78, `placid/orchestrator.py` lines 21-67)

The tracker's jobs, in `all_jobs` order, form the state.  The transition
relation has exactly the operations the orchestrator performs, with the
guards its control flow establishes:

* `add` — `add_job` appends a fresh PENDING job (`run`, orchestrator 72-73);
* `submitOk`/`submitFail` — `submit_all` (orchestrator 24-34) walks the
  `pending` list (all PENDING: jobs enter it PENDING via `add_job` and
  leave it on `mark_submitted`/`mark_error`) and calls `mark_submitted`
  on a job id, or `mark_error` on a submit failure;
* `pollFinished`/`pollError` — `poll_all` (orchestrator 55-65) polls only
  `get_submitted_jobs()` (status SUBMITTED) and calls
  `mark_finished(image_id, url)` or `mark_error(image_id, ...)`, each of
  which updates the job stored for that id.

The job-field updates are the tracker's `mark_*` methods verbatim.  The
model addresses jobs by their position in `all_jobs`; like the tracker's
`jobs` dict (`image_id -> Job`), it presumes the render service issues
distinct image ids. -/

inductive JobStatus where
  | pending
  | submitted
  | finished
  | error
  deriving DecidableEq, Repr

structure Job where
  variant : String
  text : String
  status : JobStatus
  imageId : Option Nat
  imageUrl : Option String
  error : Option String
  deriving DecidableEq, Repr

/-- `add_job`: `Job(variant=variant, text=text)` with the dataclass
defaults (PENDING, no id, no url, no error). -/
def Job.new (text variant : String) : Job :=
  ⟨variant, text, .pending, none, none, none⟩

/-- `mark_submitted`: set SUBMITTED and store the image id. -/
def markSubmitted (j : Job) (imageId : Nat) : Job :=
  { j with status := .submitted, imageId := some imageId }

/-- `mark_finished`: set FINISHED and store the URL. -/
def markFinished (j : Job) (imageUrl : String) : Job :=
  { j with status := .finished, imageUrl := some imageUrl }

/-- `mark_error`: set ERROR and store the message. -/
def markError (j : Job) (error : String) : Job :=
  { j with status := .error, error := some error }

abbrev TrackerState := List Job

/-- One orchestrator-driven tracker operation. -/
inductive OrchStep : TrackerState → TrackerState → Prop where
  | add (s : TrackerState) (text variant : String) :
      OrchStep s (s ++ [Job.new text variant])
  | submitOk (s : TrackerState) (k imageId : Nat) (j : Job)
      (hj : s.get? k = some j) (hp : j.status = .pending) :
      OrchStep s (s.set k (markSubmitted j imageId))
  | submitFail (s : TrackerState) (k : Nat) (j : Job)
      (hj : s.get? k = some j) (hp : j.status = .pending) :
      OrchStep s (s.set k (markError j "Submit failed"))
  | pollFinished (s : TrackerState) (k : Nat) (url : String) (j : Job)
      (hj : s.get? k = some j) (hp : j.status = .submitted) :
      OrchStep s (s.set k (markFinished j url))
  | pollError (s : TrackerState) (k : Nat) (msg : String) (j : Job)
      (hj : s.get? k = some j) (hp : j.status = .submitted) :
      OrchStep s (s.set k (markError j msg))

/-- States reachable from the tracker's empty initial state. -/
inductive OrchReachable : TrackerState → Prop where
  | init : OrchReachable []
  | step {s s' : TrackerState} :
      OrchReachable s → OrchStep s s' → OrchReachable s'

/-- The status edges of the claim: stay in place, or move along
PENDING → SUBMITTED → (FINISHED | ERROR) or PENDING → ERROR; FINISHED and
ERROR are terminal. -/
def allowedTransition : JobStatus → JobStatus → Bool
  | .pending, .pending => true
  | .pending, .submitted => true
  | .pending, .error => true
  | .submitted, .submitted => true
  | .submitted, .finished => true
  | .submitted, .error => true
  | .finished, .finished => true
  | .error, .error => true
  | _, _ => false

theorem get?_set_same {α : Type} :
    ∀ (l : List α) (k : Nat) (a b : α),
      l.get? k = some b → (l.set k a).get? k = some a := by
  intro l
  induction l with
  | nil => intro k a b h; cases k <;> cases h
  | cons x t ih =>
    intro k a b h
    cases k with
    | zero => rfl
    | succ j =>
      rw [List.get?_cons_succ] at h
      show (x :: t.set j a).get? (j + 1) = some a
      rw [List.get?_cons_succ]
      exact ih j a b h

theorem get?_set_other {α : Type} :
    ∀ (l : List α) (k i : Nat) (a : α), k ≠ i →
      (l.set k a).get? i = l.get? i := by
  intro l
  induction l with
  | nil => intro k i a _; rfl
  | cons x t ih =>
    intro k i a hki
    cases k with
    | zero =>
      cases i with
      | zero => exact absurd rfl hki
      | succ i' => rfl
    | succ j =>
      cases i with
      | zero => rfl
      | succ i' =>
        show (x :: t.set j a).get? (i' + 1) = (x :: t).get? (i' + 1)
        rw [List.get?_cons_succ, List.get?_cons_succ]
        exact ih j i' a (fun e => hki (by rw [e]))

theorem get?_append_left_some {α : Type} :
    ∀ (l l₂ : List α) (k : Nat) (b : α),
      l.get? k = some b → (l ++ l₂).get? k = some b := by
  intro l
  induction l with
  | nil => intro l₂ k b h; cases k <;> cases h
  | cons x t ih =>
    intro l₂ k b h
    cases k with
    | zero => exact h
    | succ j =>
      rw [List.get?_cons_succ] at h
      show (x :: (t ++ l₂)).get? (j + 1) = some b
      rw [List.get?_cons_succ]
      exact ih l₂ j b h

/-- Reachability invariant: a PENDING job has no image id yet (ids are
only ever stored by `mark_submitted`, which also sets SUBMITTED). -/
theorem step_pending_no_id (s s' : TrackerState) (hstep : OrchStep s s')
    (hinv : ∀ (k : Nat) (j : Job), s.get? k = some j → j.status = .pending →
      j.imageId = none) :
    ∀ (k : Nat) (j : Job), s'.get? k = some j → j.status = .pending →
      j.imageId = none := by
  cases hstep with
  | add text variant =>
    intro k j hj hp
    by_cases hk : k < s.length
    · obtain ⟨j₀, hj₀⟩ : ∃ j₀, s.get? k = some j₀ := by
        rw [List.get?_eq_getElem?, List.getElem?_eq_getElem hk]
        exact ⟨_, rfl⟩
      rw [get?_append_left_some s _ k j₀ hj₀] at hj
      injection hj with hj
      exact hj ▸ hinv k j₀ hj₀ (hj ▸ hp)
    · have hsplit : (s ++ [Job.new text variant]).get? k =
          [Job.new text variant].get? (k - s.length) := by
        rw [List.get?_eq_getElem?, List.get?_eq_getElem?]
        exact List.getElem?_append_right (Nat.le_of_not_lt hk)
      rw [hsplit] at hj
      cases hkk : k - s.length with
      | zero =>
        rw [hkk] at hj
        injection hj with hj
        rw [← hj]
        rfl
      | succ m => rw [hkk] at hj; cases hj
  | submitOk k' imageId j' hj' hp' =>
    intro k j hj hp
    by_cases hk : k' = k
    · subst hk
      rw [get?_set_same s k' _ j' hj'] at hj
      injection hj with hj
      rw [← hj] at hp
      cases hp
    · rw [get?_set_other s k' k _ hk] at hj
      exact hinv k j hj hp
  | submitFail k' j' hj' hp' =>
    intro k j hj hp
    by_cases hk : k' = k
    · subst hk
      rw [get?_set_same s k' _ j' hj'] at hj
      injection hj with hj
      rw [← hj] at hp
      cases hp
    · rw [get?_set_other s k' k _ hk] at hj
      exact hinv k j hj hp
  | pollFinished k' url j' hj' hp' =>
    intro k j hj hp
    by_cases hk : k' = k
    · subst hk
      rw [get?_set_same s k' _ j' hj'] at hj
      injection hj with hj
      rw [← hj] at hp
      cases hp
    · rw [get?_set_other s k' k _ hk] at hj
      exact hinv k j hj hp
  | pollError k' msg j' hj' hp' =>
    intro k j hj hp
    by_cases hk : k' = k
    · subst hk
      rw [get?_set_same s k' _ j' hj'] at hj
      injection hj with hj
      rw [← hj] at hp
      cases hp
    · rw [get?_set_other s k' k _ hk] at hj
      exact hinv k j hj hp

/-- Reachability invariant: a PENDING job has no image id yet (ids are
only ever stored by `mark_submitted`, which also sets SUBMITTED). -/
theorem reachable_pending_no_id {s : TrackerState} (h : OrchReachable s) :
    ∀ (k : Nat) (j : Job), s.get? k = some j → j.status = .pending →
      j.imageId = none := by
  induction h with
  | init => intro k j hj _; cases k <;> cases hj
  | step _ hstep ih => exact step_pending_no_id _ _ hstep ih

/-- C8: along every orchestrator-driven step from a reachable tracker
state, each job's status moves only along
PENDING → SUBMITTED → (FINISHED | ERROR) or PENDING → ERROR (in
particular a terminal FINISHED/ERROR status never changes), an assigned
image id is never changed or cleared, and an image id is assigned exactly
at a successful submission (PENDING → SUBMITTED). -/
theorem c8_tracker_invariant (s s' : TrackerState)
    (hr : OrchReachable s) (hstep : OrchStep s s') (k : Nat) (j j' : Job)
    (hj : s.get? k = some j) (hj' : s'.get? k = some j') :
    allowedTransition j.status j'.status = true ∧
    (∀ id, j.imageId = some id → j'.imageId = some id) ∧
    (j.imageId = none → j'.imageId ≠ none →
      j.status = .pending ∧ j'.status = .submitted) := by
  have hrefl : ∀ st : JobStatus, allowedTransition st st = true := by
    intro st; cases st <;> rfl
  cases hstep with
  | add text variant =>
    rw [get?_append_left_some s _ k j hj] at hj'
    injection hj' with e
    refine ⟨?_, ?_, ?_⟩
    · rw [← e]; exact hrefl j.status
    · intro id hid; rw [← e]; exact hid
    · intro h1 h2; rw [← e] at h2; exact absurd h1 h2
  | submitOk k' imageId j₀ hj₀ hp₀ =>
    by_cases hk : k' = k
    · subst hk
      rw [hj] at hj₀
      injection hj₀ with e
      rw [get?_set_same s k' _ j (by rw [hj]) ] at hj'
      injection hj' with e'
      refine ⟨?_, ?_, ?_⟩
      · rw [← e', ← e]
        show allowedTransition j.status JobStatus.submitted = true
        rw [e, hp₀]
        rfl
      · intro id hid
        have hnone := reachable_pending_no_id hr k' j hj (by rw [e]; exact hp₀)
        rw [hnone] at hid
        cases hid
      · intro h1 h2
        constructor
        · rw [e]; exact hp₀
        · rw [← e']
          rfl
    · rw [get?_set_other s k' k _ hk] at hj'
      rw [hj] at hj'
      injection hj' with e
      refine ⟨?_, ?_, ?_⟩
      · rw [← e]; exact hrefl j.status
      · intro id hid; rw [← e]; exact hid
      · intro h1 h2; rw [← e] at h2; exact absurd h1 h2
  | submitFail k' j₀ hj₀ hp₀ =>
    by_cases hk : k' = k
    · subst hk
      rw [hj] at hj₀
      injection hj₀ with e
      rw [get?_set_same s k' _ j (by rw [hj])] at hj'
      injection hj' with e'
      refine ⟨?_, ?_, ?_⟩
      · rw [← e', ← e]
        show allowedTransition j.status JobStatus.error = true
        rw [e, hp₀]
        rfl
      · intro id hid
        rw [← e']
        show (markError j₀ "Submit failed").imageId = some id
        show j₀.imageId = some id
        rw [← e]
        exact hid
      · intro h1 h2
        rw [← e'] at h2
        have : (markError j₀ "Submit failed").imageId = none := by
          show j₀.imageId = none
          rw [← e]
          exact h1
        exact absurd this h2
    · rw [get?_set_other s k' k _ hk] at hj'
      rw [hj] at hj'
      injection hj' with e
      refine ⟨?_, ?_, ?_⟩
      · rw [← e]; exact hrefl j.status
      · intro id hid; rw [← e]; exact hid
      · intro h1 h2; rw [← e] at h2; exact absurd h1 h2
  | pollFinished k' url j₀ hj₀ hp₀ =>
    by_cases hk : k' = k
    · subst hk
      rw [hj] at hj₀
      injection hj₀ with e
      rw [get?_set_same s k' _ j (by rw [hj])] at hj'
      injection hj' with e'
      refine ⟨?_, ?_, ?_⟩
      · rw [← e', ← e]
        show allowedTransition j.status JobStatus.finished = true
        rw [e, hp₀]
        rfl
      · intro id hid
        rw [← e']
        show j₀.imageId = some id
        rw [← e]
        exact hid
      · intro h1 h2
        rw [← e'] at h2
        have : (markFinished j₀ url).imageId = none := by
          show j₀.imageId = none
          rw [← e]
          exact h1
        exact absurd this h2
    · rw [get?_set_other s k' k _ hk] at hj'
      rw [hj] at hj'
      injection hj' with e
      refine ⟨?_, ?_, ?_⟩
      · rw [← e]; exact hrefl j.status
      · intro id hid; rw [← e]; exact hid
      · intro h1 h2; rw [← e] at h2; exact absurd h1 h2
  | pollError k' msg j₀ hj₀ hp₀ =>
    by_cases hk : k' = k
    · subst hk
      rw [hj] at hj₀
      injection hj₀ with e
      rw [get?_set_same s k' _ j (by rw [hj])] at hj'
      injection hj' with e'
      refine ⟨?_, ?_, ?_⟩
      · rw [← e', ← e]
        show allowedTransition j.status JobStatus.error = true
        rw [e, hp₀]
        rfl
      · intro id hid
        rw [← e']
        show j₀.imageId = some id
        rw [← e]
        exact hid
      · intro h1 h2
        rw [← e'] at h2
        have : (markError j₀ msg).imageId = none := by
          show j₀.imageId = none
          rw [← e]
          exact h1
        exact absurd this h2
    · rw [get?_set_other s k' k _ hk] at hj'
      rw [hj] at hj'
      injection hj' with e
      refine ⟨?_, ?_, ?_⟩
      · rw [← e]; exact hrefl j.status
      · intro id hid; rw [← e]; exact hid
      · intro h1 h2; rw [← e] at h2; exact absurd h1 h2

def w8job : Job := Job.new "txt" "dark"

def w8s0 : TrackerState := [w8job]

/-- Witness for C8: a fresh job, submitted successfully, makes a legal
PENDING → SUBMITTED move and acquires its image id exactly there. -/
theorem c8_tracker_invariant_witness :
    allowedTransition w8job.status (markSubmitted w8job 42).status = true ∧
    (∀ id, w8job.imageId = some id → (markSubmitted w8job 42).imageId = some id) ∧
    (w8job.imageId = none → (markSubmitted w8job 42).imageId ≠ none →
      w8job.status = .pending ∧ (markSubmitted w8job 42).status = .submitted) :=
  c8_tracker_invariant w8s0 (w8s0.set 0 (markSubmitted w8job 42))
    (OrchReachable.step OrchReachable.init (OrchStep.add [] "txt" "dark"))
    (OrchStep.submitOk w8s0 0 42 w8job rfl rfl)
    0 w8job (markSubmitted w8job 42) rfl rfl

end AutoCreation
